import Mathlib

/-!
# The `Image` class of `image.hpp`: a 24-bit BMP buffer with load, store and auto-save

A shallow embedding of `src/image.hpp`.

* A byte (`uint8_t`, `unsigned char`) is a `Fin 256`.
* An `int` is an `Int`; every signed multiplication of the source goes through
  `checkedInt`, which reports `Error.undefinedBehaviour` when the exact result
  leaves the 32-bit range of `int`.
* `std::unique_ptr<uint8_t[]>` is an `Option (List Byte)`: `none` is the null
  pointer, `some buf` an owned array. A pointer into it is an offset, checked to
  stay inside the array (or one past its end); a dereference outside the array
  is `Error.undefinedBehaviour`.
* The file system is a finite-map-like function from paths to contents plus a
  predicate telling which paths `fopen(path, "wb")` can open.
* The host is little-endian with `sizeof(int) = 4`, and the two header structs
  have no padding (`sizeof(BMPheader) = 12`, `sizeof(BMPinfoHeader) = 40`), as
  on every mainstream ABI.
-/

deriving instance DecidableEq for Except

namespace Bmp

/-- One `uint8_t`. -/
abbrev Byte := Fin 256

/-- Ways in which a call of the library can fail to return normally. -/
inductive Error where
  /-- The statement `throw std::runtime_error(what)`. -/
  | runtimeError (what : String)
  /-- The call `make_unique<uint8_t[]>` asked for a negative (hence, as `size_t`, enormous) size -/
  | badAlloc
  /-- Signed overflow, access outside the buffer, read of an uninitialised byte -/
  | undefinedBehaviour
  /-- An exception left the (implicitly `noexcept`) destructor: `std::terminate` -/
  | terminate (what : String)
deriving DecidableEq

/-- Smallest value of `int`. -/
def INT_MIN : Int := -2147483648

/-- Largest value of `int`. -/
def INT_MAX : Int := 2147483647

/-- Result of an `int` computation whose exact value is `z`: defined only inside the range. -/
def checkedInt (z : Int) : Except Error Int :=
  if INT_MIN ≤ z ∧ z ≤ INT_MAX then .ok z else .error .undefinedBehaviour

/-- Conversion of an integer value to `uint32_t` (also the bit pattern of an `int32_t`). -/
def toUInt32 (z : Int) : Nat := (z % 4294967296).toNat

/-- Value of the `int32_t` whose bit pattern is the unsigned number `u`. -/
def toInt32 (u : Nat) : Int := if u % 4294967296 < 2147483648 then (u % 4294967296 : Nat) else (u % 4294967296 : Nat) - 4294967296

/-- Low byte of a number. -/
def byteOf (n : Nat) : Byte := ⟨n % 256, Nat.mod_lt n (by decide)⟩

/-- Object representation of a `uint16_t` on a little-endian host. -/
def le16 (n : Nat) : List Byte := [byteOf n, byteOf (n / 256)]

/-- Object representation of a `uint32_t` / `int32_t` on a little-endian host. -/
def le32 (n : Nat) : List Byte :=
  [byteOf n, byteOf (n / 256), byteOf (n / 65536), byteOf (n / 16777216)]

/-- The unsigned 32-bit number stored little-endian at `bytes[off .. off+3]`. -/
def readUInt32 (bytes : List Byte) (off : Nat) : Nat :=
  (bytes.getD off 0).val + 256 * (bytes.getD (off + 1) 0).val
    + 65536 * (bytes.getD (off + 2) 0).val + 16777216 * (bytes.getD (off + 3) 0).val

/-- The unsigned 16-bit number stored little-endian at `bytes[off .. off+1]`. -/
def readUInt16 (bytes : List Byte) (off : Nat) : Nat :=
  (bytes.getD off 0).val + 256 * (bytes.getD (off + 1) 0).val

/-- The read `*(int*)&bytes[off]`: the signed 32-bit number stored little-endian at `bytes[off .. off+3]`. -/
def readInt32 (bytes : List Byte) (off : Nat) : Int := toInt32 (readUInt32 bytes off)

/-- The class `Image`: its four data members. -/
structure Image where
  height_ : Int
  width_ : Int
  data_ : Option (List Byte)
  name_ : String
deriving DecidableEq

/-- State of the files the library can touch. -/
structure FileSystem where
  /-- Contents of the file at a path, `none` when `fopen(path, "rb")` fails -/
  content : String → Option (List Byte)
  /-- Whether `fopen(path, "wb")` succeeds -/
  writable : String → Bool

/-- Effect of `fopen(path, "wb")`, the `fwrite` calls and `fclose`: the file holds exactly `bytes`. -/
def FileSystem.write (fs : FileSystem) (path : String) (bytes : List Byte) : FileSystem :=
  { fs with content := fun p => if p = path then some bytes else fs.content p }

namespace Image

/-- Constructor `Image()`: no data, no name. -/
def blank : Image := { height_ := 0, width_ := 0, data_ := none, name_ := "" }

/-- Constructor `Image(const std::string& name, int height, int width)`. -/
def new (name : String) (height width : Int) : Except Error Image := do
  let hw ← checkedInt (height * width)
  let n ← checkedInt (hw * 3)
  -- the `int` is converted to `size_t`: a negative size cannot be allocated
  if n < 0 then throw Error.badAlloc
  -- `make_unique` value-initialises the array and `memset` zeroes it again
  pure { height_ := height, width_ := width, data_ := some (List.replicate n.toNat 0), name_ := name }

/-- Constructor `Image(int height, int width)`, which delegates to `Image("", height, width)`. -/
def newUnnamed (height width : Int) : Except Error Image := new "" height width

/-- Method `setName(newName)`. -/
def setName (img : Image) (newName : String) : Image := { img with name_ := newName }

/-- Method `name()`. -/
def name (img : Image) : String := img.name_

/-- Method `discard()`: `name_.clear()`. -/
def discard (img : Image) : Image := { img with name_ := "" }

/-- Method `height()`. -/
def height (img : Image) : Int := img.height_

/-- Method `width()`. -/
def width (img : Image) : Int := img.width_

/-- Number of bytes of the owned array (0 for the null pointer). -/
def size (img : Image) : Nat := (img.data_.map List.length).getD 0

/-- Pointer arithmetic `data_.get() + off`-style: the resulting offset must stay within the
array or one past its end. -/
def pointer (img : Image) (off : Int) : Except Error Nat :=
  if 0 ≤ off ∧ off ≤ img.size then .ok off.toNat else .error .undefinedBehaviour

/-- Call `operator[](int hei)`: the `subArray` whose `data_` is `data_.get() + hei * width_ * 3`,
as an offset into the buffer. -/
def subArray (img : Image) (hei : Int) : Except Error Nat := do
  let a ← checkedInt (hei * img.width_)
  let b ← checkedInt (a * 3)
  img.pointer b

/-- Call `subArray::operator[](int width)`: the `Point` at `data_ + width * 3`, as an offset. -/
def point (img : Image) (sub : Nat) (width : Int) : Except Error Nat := do
  let a ← checkedInt (width * 3)
  img.pointer (sub + a)

/-- Reading `operator[](hei)[width][colour]` (`colours[colour]` of the `Point`). -/
def colourAt (img : Image) (hei width colour : Int) : Except Error Byte := do
  let sub ← img.subArray hei
  let pt ← img.point sub width
  if colour < 0 ∨ 3 ≤ colour then throw Error.undefinedBehaviour
  match img.data_ with
  | none => throw Error.undefinedBehaviour
  | some buf =>
    match buf[pt + colour.toNat]? with
    | none => throw Error.undefinedBehaviour
    | some b => pure b

/-- Store `chunk` at offset `off` of the buffer, as `fread(data_.get() + off, 1, n, file)` does
with the bytes it obtained; storing past the end of the array is undefined. -/
def store (img : Image) (off : Nat) (chunk : List Byte) : Except Error Image :=
  match img.data_ with
  | none => .error .undefinedBehaviour
  | some buf =>
    if off + chunk.length ≤ buf.length then
      .ok { img with data_ := some (buf.take off ++ chunk ++ buf.drop (off + chunk.length)) }
    else .error .undefinedBehaviour

/-- The loop `for (int i = height_ - 1; i >= 0; i--) fread(operator[] (i).data_, 1, size, file)`
with `rows` iterations left (so `i = rows - 1`) and `stream` the unread part of the file. -/
def readRows (size : Nat) : Nat → List Byte → Image → Except Error Image
  | 0, _, img => .ok img
  | i + 1, stream, img => do
    let sub ← img.subArray (i : Int)
    let img ← img.store sub (stream.take size)
    readRows size i (stream.drop size) img

/-- The body of `Image(const std::string& fileName)` once `fopen` has succeeded on a file
holding `bytes`. No statement of the constructor assigns `name_`, which therefore keeps the
empty string it is default-initialised with. -/
def decode (bytes : List Byte) : Except Error Image := do
  -- `fread(info, 1, 54, file)`
  let info := bytes.take 54
  let stream := bytes.drop 54
  -- `info[18..25]` are read below; what `fread` did not fill is uninitialised
  if info.length < 26 then throw Error.undefinedBehaviour
  let width := readInt32 info 18
  let height := readInt32 info 22
  let size ← checkedInt (3 * width)
  let total ← checkedInt (size * height)
  if total < 0 then throw Error.badAlloc
  let img : Image :=
    { height_ := height, width_ := width, data_ := some (List.replicate total.toNat 0), name_ := "" }
  readRows size.toNat height.toNat stream img

/-- Constructor `Image(const std::string& fileName)`. -/
def fromFile (fs : FileSystem) (fileName : String) : Except Error Image :=
  match fs.content fileName with
  | none => .error (.runtimeError ("Unknown image: " ++ fileName))
  | some bytes => decode bytes

/-- The bytes of `typeMagicNumber`, `header` and `infoHeader` as `save` fills and writes them,
given the values stored in `header.size`, `infoHeader.width` and `infoHeader.height`. -/
def headerBytes (size width height : Nat) : List Byte :=
  -- `typeMagicNumber = 0x4d42`
  le16 0x4d42
    -- `BMPheader`: `size`, `reserved1 = 0`, `reserved2 = 0`, `offBits = 0x36`
    ++ (le32 size ++ le16 0 ++ le16 0 ++ le32 0x36)
    -- `BMPinfoHeader`: `size = sizeof(BMPinfoHeader)`, `width`, `height`, `planes = 1`,
    -- `bitCount = 24`, `compression = 0`, `sizeImage = 0`, `xPixelsPerMetre = 5000`,
    -- `yPixelsPerMetre = 5000`, `clrUsed = 0`, `clrImportant = 0`
    ++ (le32 40 ++ le32 width ++ le32 height ++ le16 1 ++ le16 24
        ++ le32 0 ++ le32 0 ++ le32 (toUInt32 5000) ++ le32 (toUInt32 5000) ++ le32 0 ++ le32 0)

/-- The 54 header bytes that `save` writes. -/
def saveHeader (img : Image) : Except Error (List Byte) := do
  let hw ← checkedInt (img.height_ * img.width_)
  let hw3 ← checkedInt (hw * 3)
  -- `sizeof(typeMagicNumber) + sizeof(BMPheader) + sizeof(BMPinfoHeader) + height_ * width_ * 3`,
  -- converted to the `uint32_t` field
  let size := toUInt32 (2 + 12 + 40 + hw3)
  pure (headerBytes size (toUInt32 img.width_) (toUInt32 img.height_))

/-- The loop `for (colour = 0; colour < 3; colour++) fwrite(&operator[] (x)[y][colour], 1, 1, file)`. -/
def savePixel (img : Image) (x y : Int) : Except Error (List Byte) :=
  (List.range 3).mapM fun (colour : Nat) => img.colourAt x y (colour : Int)

/-- The loop `for (int y = 0; y < width_; y++)` of `save`, for row `x`. -/
def saveRow (img : Image) (x : Int) : Except Error (List Byte) := do
  let pixels ← (List.range img.width_.toNat).mapM fun (y : Nat) => img.savePixel x (y : Int)
  pure pixels.flatten

/-- The loop `for (int x = height_ - 1; x >= 0; x--)` of `save` with `rows` iterations
left (so `x = rows - 1`). -/
def saveRows (img : Image) : Nat → Except Error (List Byte)
  | 0 => .ok []
  | x + 1 => do
    let row ← img.saveRow (x : Int)
    let rest ← img.saveRows x
    pure (row ++ rest)

/-- All the bytes `save` hands to `fwrite`, in order. -/
def encode (img : Image) : Except Error (List Byte) := do
  let header ← img.saveHeader
  let bitmap ← img.saveRows img.height_.toNat
  pure (header ++ bitmap)

/-- Method `save()`. -/
def save (img : Image) (fs : FileSystem) : Except Error FileSystem := do
  let header ← img.saveHeader
  if fs.writable img.name_ = false then
    throw (Error.runtimeError ("Could not write file: " ++ img.name_))
  let bitmap ← img.saveRows img.height_.toNat
  pure (fs.write img.name_ (header ++ bitmap))

/-- Destructor `~Image()`: `if (!name_.empty() && data_) save();`. An exception that leaves
it ends the program through `std::terminate`. -/
def destroy (img : Image) (fs : FileSystem) : Except Error FileSystem :=
  if img.name_ ≠ "" ∧ img.data_.isSome then
    match img.save fs with
    | .error (.runtimeError what) => .error (.terminate what)
    | r => r
  else .ok fs

/-- The data model of a usable image: non-negative `int` dimensions and an owned array of
exactly `height_ * width_ * 3` bytes, a number that fits an `int` (every allocation of the
class passes it as one). -/
def Valid (img : Image) : Prop :=
  0 ≤ img.height_ ∧ img.height_ ≤ INT_MAX ∧ 0 ≤ img.width_ ∧ img.width_ ≤ INT_MAX ∧
    img.height_ * img.width_ * 3 ≤ INT_MAX ∧
    img.data_.map List.length = some (img.height_ * img.width_ * 3).toNat

instance (img : Image) : Decidable img.Valid := by
  unfold Valid; infer_instance

/-- A 2 × 2 image with twelve different pixel bytes, named `a.bmp`. -/
def sample : Image :=
  { height_ := 2, width_ := 2, data_ := some [1, 2, 3, 4, 5, 6, 7, 8, 9, 10, 11, 12], name_ := "a.bmp" }

/-- A file of 54 + 3 GiB bytes: a header announcing one row of 2^30 pixels, then the
`1 * 2^30 * 3` bytes of that row. -/
def hugeFile : List Byte :=
  headerBytes 3221225526 1073741824 1 ++ List.replicate 3221225472 0

/-- A file system whose only file, `test.bmp`, is a well-formed 2 × 2 bitmap, and in which
every path can be opened for writing. -/
def testFs : FileSystem :=
  { content := fun p =>
      if p = "test.bmp" then some (headerBytes 66 2 2 ++ [1, 2, 3, 4, 5, 6, 7, 8, 9, 10, 11, 12])
      else none
    writable := fun _ => true }

/-- A file system without files in which no path can be opened for writing. -/
def lockedFs : FileSystem :=
  { content := fun _ => none
    writable := fun _ => false }

/-- The 20 × 20 image `test` of `image_test.cpp` as `Image test(20, 20)` leaves it. -/
def test20 : Image :=
  { height_ := 20, width_ := 20, data_ := some (List.replicate 1200 0), name_ := "" }

/-- Call `operator[](hei)[width]`: the `Point` of a pixel, as an offset into the buffer. -/
def pixel (img : Image) (hei width : Int) : Except Error Nat := do
  let sub ← img.subArray hei
  img.point sub width

/-- Reading the byte at an offset of the buffer; outside the array the read is undefined. -/
def load (img : Image) (addr : Nat) : Except Error Byte :=
  match img.data_ with
  | none => .error .undefinedBehaviour
  | some buf =>
    match buf[addr]? with
    | none => .error .undefinedBehaviour
    | some b => .ok b

/-- The members `blue`, `green`, `red` of the anonymous struct of `union Point`. -/
inductive Member where
  | blue
  | green
  | red
deriving DecidableEq

/-- Offset of a member inside the `Point`: three consecutive `uint8_t`, which the union
overlays with `colours[0]`, `colours[1]`, `colours[2]`. -/
def Member.offset : Member → Nat
  | .blue => 0
  | .green => 1
  | .red => 2

/-- Reading `operator[](hei)[width].blue` (or `.green`, `.red`). -/
def member (img : Image) (hei width : Int) (m : Member) : Except Error Byte := do
  let pt ← img.pixel hei width
  img.load (pt + m.offset)

/-- Assignment `operator[](hei)[width][colour] = value`. -/
def setColourAt (img : Image) (hei width colour : Int) (value : Byte) : Except Error Image := do
  let pt ← img.pixel hei width
  if colour < 0 ∨ 3 ≤ colour then throw Error.undefinedBehaviour
  img.store (pt + colour.toNat) [value]

/-- Assignment `operator[](hei)[width].blue = value` (or `.green`, `.red`). -/
def setMember (img : Image) (hei width : Int) (m : Member) (value : Byte) : Except Error Image := do
  let pt ← img.pixel hei width
  img.store (pt + m.offset) [value]

/-- Call `operator[](hei)[width].setColour(blueValue, greenValue, redValue)`:
`blue = blueValue; green = greenValue; red = redValue;`. -/
def setColour (img : Image) (hei width : Int) (blueValue greenValue redValue : Byte) :
    Except Error Image := do
  let pt ← img.pixel hei width
  let img ← img.store (pt + Member.blue.offset) [blueValue]
  let img ← img.store (pt + Member.green.offset) [greenValue]
  img.store (pt + Member.red.offset) [redValue]

/-- What a caller can do with a live image. -/
inductive Op where
  /-- The call `setName(newName)`. -/
  | setName (newName : String)
  /-- The call `discard()`. -/
  | discard
  /-- The assignment `image[hei][width][colour] = value`. -/
  | assign (hei width colour : Int) (value : Byte)
  /-- The assignment `image[hei][width].blue = value` (or `.green`, `.red`). -/
  | assignMember (hei width : Int) (m : Member) (value : Byte)
  /-- The call `image[hei][width].setColour(blueValue, greenValue, redValue)`. -/
  | setColour (hei width : Int) (blueValue greenValue redValue : Byte)
  /-- The call `save()`, which assigns no data member. -/
  | save

/-- One operation on an image, in a file system. -/
def perform (img : Image) (fs : FileSystem) : Op → Except Error (Image × FileSystem)
  | .setName newName => .ok (img.setName newName, fs)
  | .discard => .ok (img.discard, fs)
  | .assign hei width colour value => (img.setColourAt hei width colour value).map fun i => (i, fs)
  | .assignMember hei width m value => (img.setMember hei width m value).map fun i => (i, fs)
  | .setColour hei width b g r => (img.setColour hei width b g r).map fun i => (i, fs)
  | .save => (img.save fs).map fun fs' => (img, fs')

/-- A sequence of operations, stopping at the first that does not return. -/
def run : List Op → Image → FileSystem → Except Error (Image × FileSystem)
  | [], img, fs => .ok (img, fs)
  | op :: ops, img, fs =>
    match img.perform fs op with
    | .ok (img', fs') => run ops img' fs'
    | .error e => .error e

/-- The ways an image with non-negative dimensions comes into being: `Image(name, height,
width)`, `Image(height, width)` (the same with an empty name), or `Image(fileName)`. -/
def Created (img : Image) : Prop :=
  (∃ (name : String) (h w : Int), 0 ≤ h ∧ h ≤ INT_MAX ∧ 0 ≤ w ∧ w ≤ INT_MAX ∧
      new name h w = .ok img) ∨
    (∃ bytes : List Byte, decode bytes = .ok img ∧ 0 ≤ img.height_ ∧ 0 ≤ img.width_)

end Image

/-! ## Auxiliary lemmas -/

theorem checkedInt_ok {z : Int} (h1 : INT_MIN ≤ z) (h2 : z ≤ INT_MAX) : checkedInt z = .ok z := by
  simp [checkedInt, h1, h2]

/-- An `Except` loop over a list all of whose steps succeed. -/
theorem mapM_ok {α β : Type} (f : α → Except Error β) (g : α → β) (l : List α)
    (h : ∀ a ∈ l, f a = .ok (g a)) : l.mapM f = .ok (l.map g) := by
  induction l with
  | nil => rfl
  | cons a l ih =>
    have h1 := h a (List.mem_cons_self a l)
    have h2 := ih (fun b hb => h b (List.mem_cons_of_mem a hb))
    rw [List.mapM_cons, h1, h2]; rfl

namespace Image

theorem subArray_ok (img : Image) (i W : Nat) (hw : img.width_ = W)
    (hle : i * W * 3 ≤ img.size) (hsz : img.size ≤ 2147483647) :
    img.subArray i = .ok (i * W * 3) := by
  have h1 : i * W ≤ i * W * 3 := Nat.le_mul_of_pos_right _ (by decide)
  have e1 : checkedInt ((i : Int) * (W : Int)) = .ok ((i * W : Nat) : Int) := by
    rw [← Nat.cast_mul]
    apply checkedInt_ok <;> simp only [INT_MIN, INT_MAX] <;> omega
  have e2 : checkedInt (((i * W : Nat) : Int) * 3) = .ok ((i * W * 3 : Nat) : Int) := by
    have : ((i * W : Nat) : Int) * 3 = ((i * W * 3 : Nat) : Int) := by push_cast; ring
    rw [this]
    apply checkedInt_ok <;> simp only [INT_MIN, INT_MAX] <;> omega
  simp only [subArray, hw, e1, e2, bind, Except.bind, pointer]
  rw [if_pos ⟨by omega, by exact_mod_cast hle⟩]
  congr 1

theorem point_ok (img : Image) (sub y : Nat)
    (hle : sub + y * 3 ≤ img.size) (hsz : img.size ≤ 2147483647) :
    img.point sub y = .ok (sub + y * 3) := by
  have e1 : checkedInt ((y : Int) * 3) = .ok ((y * 3 : Nat) : Int) := by
    have : (y : Int) * 3 = ((y * 3 : Nat) : Int) := by push_cast; ring
    rw [this]
    apply checkedInt_ok <;> simp only [INT_MIN, INT_MAX] <;> omega
  simp only [point, e1, bind, Except.bind, pointer]
  rw [if_pos ⟨by omega, by exact_mod_cast hle⟩]
  congr 1

theorem colourAt_ok (img : Image) (buf : List Byte) (r c k W : Nat) (b : Byte)
    (hd : img.data_ = some buf) (hw : img.width_ = W) (hsz : buf.length ≤ 2147483647)
    (hk : k < 3) (hb : buf[r * W * 3 + c * 3 + k]? = some b) :
    img.colourAt r c k = .ok b := by
  have hsize : img.size = buf.length := by simp [size, hd]
  have hlt : r * W * 3 + c * 3 + k < buf.length := by
    rcases Nat.lt_or_ge (r * W * 3 + c * 3 + k) buf.length with h | h
    · exact h
    · rw [List.getElem?_eq_none h] at hb; cases hb
  have e1 := subArray_ok img r W hw (by omega) (by omega)
  have e2 := point_ok img (r * W * 3) c (by omega) (by omega)
  have e3 : ¬ ((k : Int) < 0 ∨ 3 ≤ (k : Int)) := by omega
  simp only [colourAt, e1, e2, bind, Except.bind, if_neg e3, hd, Int.toNat_ofNat, hb, pure, Except.pure]

end Image


/-- Concatenating `n` blocks of `m` consecutive values enumerates `n * m` values. -/
theorem flatten_range_blocks {β : Type} (f : Nat → β) (m : Nat) :
    ∀ n : Nat, ((List.range n).map fun i => (List.range m).map fun j => f (i * m + j)).flatten
      = (List.range (n * m)).map f := by
  intro n
  induction n with
  | zero => simp
  | succ n ih =>
    rw [List.range_succ, List.map_append, List.flatten_append, ih, Nat.succ_mul, List.range_add,
      List.map_append]
    simp [List.map_map, Function.comp_def]

namespace Image

theorem savePixel_ok (img : Image) (buf : List Byte) (x y W : Nat)
    (hd : img.data_ = some buf) (hw : img.width_ = W) (hsz : buf.length ≤ 2147483647)
    (hin : x * W * 3 + y * 3 + 3 ≤ buf.length) :
    img.savePixel x y = .ok ((List.range 3).map fun k => buf.getD (x * W * 3 + (y * 3 + k)) 0) := by
  unfold savePixel
  apply mapM_ok
  intro k hk
  have hk3 : k < 3 := List.mem_range.mp hk
  apply colourAt_ok img buf x y k W _ hd hw hsz hk3
  rw [← Nat.add_assoc, List.getD_eq_getElem?_getD, List.getElem?_eq_getElem (by omega)]
  rfl

theorem saveRow_ok (img : Image) (buf : List Byte) (x W : Nat)
    (hd : img.data_ = some buf) (hw : img.width_ = W) (hsz : buf.length ≤ 2147483647)
    (hin : x * W * 3 + W * 3 ≤ buf.length) :
    img.saveRow x = .ok ((List.range (W * 3)).map fun j => buf.getD (x * W * 3 + j) 0) := by
  have h : (List.range img.width_.toNat).mapM (fun y : Nat => img.savePixel x y)
      = .ok ((List.range W).map fun y => (List.range 3).map fun k =>
          buf.getD (x * W * 3 + (y * 3 + k)) 0) := by
    rw [hw, Int.toNat_ofNat]
    apply mapM_ok
    intro y hy
    have hy' : y < W := List.mem_range.mp hy
    exact savePixel_ok img buf x y W hd hw hsz (by omega)
  simp only [saveRow, h, bind, Except.bind, pure, Except.pure]
  rw [flatten_range_blocks (fun t => buf.getD (x * W * 3 + t) 0) 3 W]

/-- What the row loop of `save` writes: `rows * n` bytes, the block number `q` being row
`rows - 1 - q` of the buffer (`n = 3 * width`). -/
theorem saveRows_spec (img : Image) (buf : List Byte) (W : Nat)
    (hd : img.data_ = some buf) (hw : img.width_ = W) (hsz : buf.length ≤ 2147483647) :
    ∀ rows : Nat, rows * (W * 3) ≤ buf.length →
      ∃ out, img.saveRows rows = .ok out ∧ out.length = rows * (W * 3) ∧
        ∀ q r j, q + r + 1 = rows → j < W * 3 → out[q * (W * 3) + j]? = buf[r * (W * 3) + j]? := by
  intro rows
  induction rows with
  | zero => intro _; exact ⟨[], rfl, by simp, by intro q r j h; omega⟩
  | succ m ih =>
    intro hle
    rw [Nat.succ_mul] at hle
    obtain ⟨out, ho, hlen, hidx⟩ := ih (by omega)
    have hrow := saveRow_ok img buf m W hd hw hsz (by rw [Nat.mul_assoc]; omega)
    refine ⟨_, by simp only [saveRows, hrow, ho, bind, Except.bind, pure, Except.pure]; rfl, ?_, ?_⟩
    · simp [hlen, Nat.succ_mul]; omega
    · intro q r j hqr hj
      cases q with
      | zero =>
        have hr : r = m := by omega
        subst hr
        rw [List.getElem?_append_left (by simp; omega)]
        simp only [Nat.zero_mul, Nat.zero_add]
        rw [List.getElem?_map, List.getElem?_range hj, Option.map_some', List.getD_eq_getElem?_getD,
          Nat.mul_assoc, List.getElem?_eq_getElem (by omega)]
        rfl
      | succ q =>
        rw [List.getElem?_append_right (by simp [Nat.succ_mul]; omega)]
        have : (q + 1) * (W * 3) + j - (List.map (fun j => buf.getD (m * W * 3 + j) 0) (List.range (W * 3))).length
            = q * (W * 3) + j := by simp [Nat.succ_mul]; omega
        rw [this]
        exact hidx q r j (by omega) hj

end Image

namespace Image

/-- Bytes of a buffer after a block was stored into it. -/
theorem getElem?_splice (buf chunk : List Byte) (off t : Nat) (hin : off + chunk.length ≤ buf.length) :
    (buf.take off ++ chunk ++ buf.drop (off + chunk.length))[t]?
      = if t < off then buf[t]? else if t < off + chunk.length then chunk[t - off]? else buf[t]? := by
  have hl : (buf.take off).length = off := by rw [List.length_take]; omega
  rw [List.append_assoc, List.getElem?_append, hl]
  split
  · next h => rw [List.getElem?_take, if_pos h]
  · next h =>
    rw [List.getElem?_append]
    split
    · next h2 => rw [if_pos (by omega)]
    · next h2 =>
      rw [if_neg (by omega), List.getElem?_drop]
      congr 1; omega

theorem length_splice (buf chunk : List Byte) (off : Nat) (hin : off + chunk.length ≤ buf.length) :
    (buf.take off ++ chunk ++ buf.drop (off + chunk.length)).length = buf.length := by
  simp only [List.length_append, List.length_take, List.length_drop]; omega

/-- What the row loop of the file constructor leaves in the buffer: block number `q` of the
stream becomes row `rows - 1 - q`, the bytes from `rows * n` on are untouched. -/
theorem readRows_spec (W : Nat) :
    ∀ (rows : Nat) (stream : List Byte) (img : Image) (buf : List Byte),
      img.data_ = some buf → img.width_ = W → buf.length ≤ 2147483647 →
      rows * (W * 3) ≤ buf.length → rows * (W * 3) ≤ stream.length →
      ∃ out, readRows (W * 3) rows stream img = .ok { img with data_ := some out } ∧
        out.length = buf.length ∧
        (∀ q r j, q + r + 1 = rows → j < W * 3 → out[r * (W * 3) + j]? = stream[q * (W * 3) + j]?) ∧
        (∀ t, rows * (W * 3) ≤ t → out[t]? = buf[t]?) := by
  intro rows
  induction rows with
  | zero =>
    intro stream img buf hd _ _ _ _
    refine ⟨buf, ?_, rfl, by intro q r j h; omega, fun _ _ => rfl⟩
    simp only [readRows, ← hd]
  | succ m ih =>
    intro stream img buf hd hw hsz hb hs
    rw [Nat.succ_mul] at hb hs
    have hsize : img.size = buf.length := by simp [size, hd]
    have e1 := subArray_ok img m W hw (by rw [hsize, Nat.mul_assoc]; omega) (by omega)
    have hcl : (stream.take (W * 3)).length = W * 3 := by rw [List.length_take]; omega
    have hin : m * W * 3 + (stream.take (W * 3)).length ≤ buf.length := by
      rw [hcl, Nat.mul_assoc]; omega
    have e2 : img.store (m * W * 3) (stream.take (W * 3))
        = .ok { img with data_ := some (buf.take (m * W * 3) ++ stream.take (W * 3)
            ++ buf.drop (m * W * 3 + (stream.take (W * 3)).length)) } := by
      simp only [store, hd, if_pos hin]
    have hl1 := length_splice buf (stream.take (W * 3)) (m * W * 3) hin
    obtain ⟨out, ho, hlen, hrows, htail⟩ := ih (stream.drop (W * 3))
      { img with data_ := some (buf.take (m * W * 3) ++ stream.take (W * 3)
            ++ buf.drop (m * W * 3 + (stream.take (W * 3)).length)) } _ rfl hw
      (by rw [hl1]; exact hsz) (by rw [hl1]; omega) (by rw [List.length_drop]; omega)
    refine ⟨out, ?_, by rw [hlen, hl1], ?_, ?_⟩
    · simp only [readRows, e1, e2, bind, Except.bind, ho]
    · intro q r j hqr hj
      cases q with
      | zero =>
        have hr : r = m := by omega
        subst hr
        rw [htail _ (by omega), getElem?_splice _ _ _ _ hin, if_neg (by rw [Nat.mul_assoc]; omega),
          if_pos (by rw [hcl, Nat.mul_assoc]; omega), List.getElem?_take, if_pos (by rw [Nat.mul_assoc]; omega)]
        congr 1; rw [Nat.mul_assoc]; omega
      | succ q =>
        rw [hrows q r j (by omega) hj, List.getElem?_drop]
        congr 1; rw [Nat.succ_mul]; omega
    · intro t ht
      rw [Nat.succ_mul] at ht
      rw [htail t (by omega), getElem?_splice _ _ _ _ hin, if_neg (by rw [Nat.mul_assoc]; omega),
        if_neg (by rw [hcl, Nat.mul_assoc]; omega)]

end Image


theorem byteOf_val (n : Nat) : (byteOf n).val = n % 256 := rfl

theorem toUInt32_lt (z : Int) : toUInt32 z < 4294967296 := by
  simp only [toUInt32]; omega

theorem toUInt32_natCast (n : Nat) (h : n < 4294967296) : toUInt32 (n : Int) = n := by
  simp only [toUInt32]; omega

theorem toInt32_natCast (n : Nat) (h : n ≤ 2147483647) : toInt32 n = n := by
  simp only [toInt32]; split <;> omega

theorem toInt32_le (u : Nat) : toInt32 u ≤ INT_MAX := by
  simp only [toInt32, INT_MAX]; split <;> omega

namespace Image

theorem headerBytes_length (s w h : Nat) : (headerBytes s w h).length = 54 := by
  simp [headerBytes, le16, le32]

theorem le32_read (n : Nat) (hn : n < 4294967296) :
    (byteOf n).val + 256 * (byteOf (n / 256)).val + 65536 * (byteOf (n / 65536)).val
      + 16777216 * (byteOf (n / 16777216)).val = n := by
  simp only [byteOf_val]; omega

theorem headerBytes_size (s w h : Nat) (rest : List Byte) (hs : s < 4294967296) :
    readUInt32 (headerBytes s w h ++ rest) 2 = s := by
  simp only [headerBytes, le16, le32, readUInt32, List.cons_append, List.nil_append,
    List.getD_cons_succ, List.getD_cons_zero, List.append_assoc]
  exact le32_read s hs

theorem headerBytes_width (s w h : Nat) (rest : List Byte) (hw : w < 4294967296) :
    readUInt32 (headerBytes s w h ++ rest) 18 = w := by
  simp only [headerBytes, le16, le32, readUInt32, List.cons_append, List.nil_append,
    List.getD_cons_succ, List.getD_cons_zero, List.append_assoc]
  exact le32_read w hw

theorem headerBytes_height (s w h : Nat) (rest : List Byte) (hh : h < 4294967296) :
    readUInt32 (headerBytes s w h ++ rest) 22 = h := by
  simp only [headerBytes, le16, le32, readUInt32, List.cons_append, List.nil_append,
    List.getD_cons_succ, List.getD_cons_zero, List.append_assoc]
  exact le32_read h hh

theorem readUInt32_take (bytes : List Byte) (off n : Nat) (h : off + 3 < n) :
    readUInt32 (bytes.take n) off = readUInt32 bytes off := by
  simp only [readUInt32, List.getD_eq_getElem?_getD, List.getElem?_take]
  rw [if_pos (by omega), if_pos (by omega), if_pos (by omega), if_pos (by omega)]

/-- The shape of a valid image, with the dimensions as natural numbers. -/
theorem Valid.shape {img : Image} (hv : img.Valid) :
    ∃ (H W : Nat) (buf : List Byte), img.height_ = H ∧ img.width_ = W ∧ img.data_ = some buf ∧
      buf.length = H * (W * 3) ∧ H * (W * 3) ≤ 2147483647 ∧ H ≤ 2147483647 ∧ W ≤ 2147483647 := by
  obtain ⟨h0, h1, w0, w1, hp, hd⟩ := hv
  obtain ⟨H, hH⟩ := Int.eq_ofNat_of_zero_le h0
  obtain ⟨W, hW⟩ := Int.eq_ofNat_of_zero_le w0
  rw [hH, hW] at hp hd
  simp only [INT_MAX, hH, hW] at h1 w1 hp
  have e : ((H : Int) * (W : Int) * 3) = ((H * (W * 3) : Nat) : Int) := by push_cast; ring
  rw [e] at hp hd
  rw [Int.toNat_ofNat] at hd
  cases hb : img.data_ with
  | none => rw [hb] at hd; cases hd
  | some buf =>
    rw [hb] at hd
    simp only [Option.map_some', Option.some.injEq] at hd
    exact ⟨H, W, buf, hH, hW, rfl, hd, by omega, by omega, by omega⟩

theorem saveHeader_ok (img : Image) (H W : Nat) (hh : img.height_ = H) (hw : img.width_ = W)
    (hp : H * (W * 3) ≤ 2147483647) :
    img.saveHeader = .ok (headerBytes (54 + H * (W * 3)) (toUInt32 W) (toUInt32 H)) := by
  have h1 : H * W ≤ H * W * 3 := Nat.le_mul_of_pos_right _ (by decide)
  have h2 : H * W * 3 = H * (W * 3) := Nat.mul_assoc _ _ _
  have e1 : checkedInt ((H : Int) * (W : Int)) = .ok ((H * W : Nat) : Int) := by
    rw [← Nat.cast_mul]
    apply checkedInt_ok <;> simp only [INT_MIN, INT_MAX] <;> omega
  have e2 : checkedInt (((H * W : Nat) : Int) * 3) = .ok ((H * (W * 3) : Nat) : Int) := by
    have : ((H * W : Nat) : Int) * 3 = ((H * (W * 3) : Nat) : Int) := by push_cast; ring
    rw [this]
    apply checkedInt_ok <;> simp only [INT_MIN, INT_MAX] <;> omega
  have e3 : toUInt32 (2 + 12 + 40 + ((H * (W * 3) : Nat) : Int)) = 54 + H * (W * 3) := by
    revert hp
    generalize H * (W * 3) = N
    intro hp
    simp only [toUInt32]
    omega
  simp only [saveHeader, hh, hw, e1, e2, e3, bind, Except.bind, pure, Except.pure]

/-- Every image that `Image(name, height, width)` returns for non-negative `int` dimensions
satisfies the data model. -/
theorem new_valid (name : String) (h w : Int) (img : Image)
    (hh : 0 ≤ h) (hh' : h ≤ INT_MAX) (hw : 0 ≤ w) (hw' : w ≤ INT_MAX)
    (hnew : new name h w = .ok img) : img.Valid := by
  simp only [new, checkedInt, bind, Except.bind] at hnew
  split at hnew
  · cases hnew
  · next v1 hv1 =>
    split at hv1
    · next c1 =>
      cases hv1
      split at hnew
      · cases hnew
      · next v2 hv2 =>
        split at hv2
        · next c2 =>
          cases hv2
          split at hnew
          · cases hnew
          · cases hnew
            refine ⟨hh, hh', hw, hw', c2.2, ?_⟩
            simp
        · cases hv2
    · cases hv1

/-- What `save` emits for a valid image: the header, then the rows of the buffer, last row first. -/
theorem encode_spec (img : Image) (H W : Nat) (buf : List Byte)
    (hh : img.height_ = H) (hw : img.width_ = W) (hd : img.data_ = some buf)
    (hl : buf.length = H * (W * 3)) (hp : H * (W * 3) ≤ 2147483647) :
    ∃ bitmap, img.encode = .ok (headerBytes (54 + H * (W * 3)) (toUInt32 W) (toUInt32 H) ++ bitmap) ∧
      img.saveRows H = .ok bitmap ∧
      bitmap.length = H * (W * 3) ∧
      ∀ q r j, q + r + 1 = H → j < W * 3 → bitmap[q * (W * 3) + j]? = buf[r * (W * 3) + j]? := by
  obtain ⟨out, ho, hlen, hidx⟩ := saveRows_spec img buf W hd hw (by omega) H (by omega)
  refine ⟨out, ?_, ho, hlen, hidx⟩
  simp only [encode, saveHeader_ok img H W hh hw hp, hh, Int.toNat_ofNat, ho, bind, Except.bind,
    pure, Except.pure]

/-- What the file constructor builds from a file that holds a full header and all the rows
its header announces. -/
theorem decode_spec (bytes : List Byte) (H W : Nat)
    (hw : readInt32 bytes 18 = W) (hh : readInt32 bytes 22 = H)
    (hW : W * 3 ≤ 2147483647) (hp : H * (W * 3) ≤ 2147483647)
    (hlen : 54 + H * (W * 3) ≤ bytes.length) :
    ∃ out, decode bytes = .ok { height_ := H, width_ := W, data_ := some out, name_ := "" } ∧
      out.length = H * (W * 3) ∧
      ∀ q r j, q + r + 1 = H → j < W * 3 → out[r * (W * 3) + j]? = bytes[54 + (q * (W * 3) + j)]? := by
  have hinfo : ¬ (bytes.take 54).length < 26 := by rw [List.length_take]; omega
  have hw' : readInt32 (bytes.take 54) 18 = W := by
    rw [← hw]; simp only [readInt32]; rw [readUInt32_take _ _ _ (by omega)]
  have hh' : readInt32 (bytes.take 54) 22 = H := by
    rw [← hh]; simp only [readInt32]; rw [readUInt32_take _ _ _ (by omega)]
  have e1 : checkedInt (3 * (W : Int)) = .ok ((W * 3 : Nat) : Int) := by
    have : 3 * (W : Int) = ((W * 3 : Nat) : Int) := by push_cast; ring
    rw [this]
    apply checkedInt_ok <;> simp only [INT_MIN, INT_MAX] <;> omega
  have e2 : checkedInt (((W * 3 : Nat) : Int) * (H : Int)) = .ok ((H * (W * 3) : Nat) : Int) := by
    have : ((W * 3 : Nat) : Int) * (H : Int) = ((H * (W * 3) : Nat) : Int) := by push_cast; ring
    rw [this]
    apply checkedInt_ok <;> simp only [INT_MIN, INT_MAX] <;> omega
  have e3 : ¬ (((H * (W * 3) : Nat) : Int) < 0) := by omega
  obtain ⟨out, ho, hol, hrows, _⟩ := readRows_spec W H (bytes.drop 54)
    { height_ := H, width_ := W, data_ := some (List.replicate (H * (W * 3)) 0), name_ := "" }
    (List.replicate (H * (W * 3)) 0) rfl rfl
    (by rw [List.length_replicate]; exact hp) (by rw [List.length_replicate])
    (by rw [List.length_drop]; omega)
  refine ⟨out, ?_, by rw [hol, List.length_replicate], ?_⟩
  · simp only [decode, if_neg hinfo, hw', hh', e1, e2, if_neg e3, bind, Except.bind, Int.toNat_ofNat, ho]
    rfl
  · intro q r j hqr hj
    rw [hrows q r j hqr hj, List.getElem?_drop]

/-- A store changes neither the dimensions, nor the name, nor the length of the buffer. -/
theorem store_shape (img img' : Image) (off : Nat) (chunk : List Byte)
    (h : img.store off chunk = .ok img') :
    img'.height_ = img.height_ ∧ img'.width_ = img.width_ ∧ img'.name_ = img.name_ ∧
      img'.data_.map List.length = img.data_.map List.length := by
  unfold store at h
  cases hd : img.data_ with
  | none => rw [hd] at h; cases h
  | some buf =>
    rw [hd] at h
    simp only at h
    split at h
    · next hin =>
      cases h
      refine ⟨rfl, rfl, rfl, ?_⟩
      simp only [Option.map_some', length_splice buf chunk off hin]
    · cases h

/-- The row loop of the file constructor changes neither the dimensions, nor the name, nor
the length of the buffer, however short the file is. -/
theorem readRows_shape (size : Nat) :
    ∀ (rows : Nat) (stream : List Byte) (img img' : Image),
      readRows size rows stream img = .ok img' →
      img'.height_ = img.height_ ∧ img'.width_ = img.width_ ∧ img'.name_ = img.name_ ∧
        img'.data_.map List.length = img.data_.map List.length := by
  intro rows
  induction rows with
  | zero =>
    intro stream img img' h
    cases h
    exact ⟨rfl, rfl, rfl, rfl⟩
  | succ m ih =>
    intro stream img img' h
    simp only [readRows, bind, Except.bind] at h
    split at h
    · cases h
    · split at h
      · cases h
      · next sub _ img1 h1 =>
        obtain ⟨a1, a2, a3, a4⟩ := store_shape _ _ _ _ h1
        obtain ⟨b1, b2, b3, b4⟩ := ih _ _ _ h
        exact ⟨b1.trans a1, b2.trans a2, b3.trans a3, b4.trans a4⟩

/-- Every image that the file constructor returns with non-negative dimensions satisfies the
data model, and its name is empty. -/
theorem decode_valid (bytes : List Byte) (img : Image) (h : decode bytes = .ok img)
    (hh : 0 ≤ img.height_) (hw : 0 ≤ img.width_) : img.Valid ∧ img.name_ = "" := by
  by_cases c0 : (bytes.take 54).length < 26
  · have e : decode bytes = .error .undefinedBehaviour := by
      simp only [decode, if_pos c0, bind, Except.bind]
    rw [e] at h; cases h
  by_cases c1 : INT_MIN ≤ 3 * readInt32 (bytes.take 54) 18 ∧ 3 * readInt32 (bytes.take 54) 18 ≤ INT_MAX
  swap
  · have e : decode bytes = .error .undefinedBehaviour := by
      simp only [decode, if_neg c0, checkedInt, if_neg c1, bind, Except.bind]; rfl
    rw [e] at h; cases h
  by_cases c2 : INT_MIN ≤ 3 * readInt32 (bytes.take 54) 18 * readInt32 (bytes.take 54) 22 ∧
      3 * readInt32 (bytes.take 54) 18 * readInt32 (bytes.take 54) 22 ≤ INT_MAX
  swap
  · have e : decode bytes = .error .undefinedBehaviour := by
      simp only [decode, if_neg c0, checkedInt, if_pos c1, if_neg c2, bind, Except.bind]; rfl
    rw [e] at h; cases h
  by_cases c3 : 3 * readInt32 (bytes.take 54) 18 * readInt32 (bytes.take 54) 22 < 0
  · have e : decode bytes = .error .badAlloc := by
      simp only [decode, if_neg c0, checkedInt, if_pos c1, if_pos c2, if_pos c3, bind, Except.bind]
      rfl
    rw [e] at h; cases h
  simp only [decode, if_neg c0, checkedInt, if_pos c1, if_pos c2, if_neg c3, bind, Except.bind,
    pure, Except.pure] at h
  obtain ⟨a1, a2, a3, a4⟩ := readRows_shape _ _ _ _ _ h
  simp only at a1 a2 a3 a4
  rw [a1] at hh
  rw [a2] at hw
  refine ⟨⟨by rw [a1]; exact hh, by rw [a1]; exact toInt32_le _,
    by rw [a2]; exact hw, by rw [a2]; exact toInt32_le _, ?_, ?_⟩, a3⟩
  · rw [a1, a2]
    have : readInt32 (List.take 54 bytes) 22 * readInt32 (List.take 54 bytes) 18 * 3
        = 3 * readInt32 (List.take 54 bytes) 18 * readInt32 (List.take 54 bytes) 22 := by
      ring
    rw [this]; exact c2.2
  · rw [a4, a1, a2, Option.map_some', List.length_replicate]
    congr 2
    ring

end Image

/-! ## The claims -/

/-- Two buffers of `H` rows of `n` bytes that agree row by row are equal. -/
theorem eq_of_rows (a b : List Byte) (H n : Nat) (ha : a.length = H * n) (hb : b.length = H * n)
    (h : ∀ r j, r < H → j < n → a[r * n + j]? = b[r * n + j]?) : a = b := by
  apply List.ext_getElem?
  intro t
  rcases Nat.lt_or_ge t (H * n) with ht | ht
  · have hn : 0 < n := by
      rcases Nat.eq_zero_or_pos n with h0 | h0
      · rw [h0, Nat.mul_zero] at ht; omega
      · exact h0
    have e : t = t / n * n + t % n := by rw [Nat.mul_comm]; exact (Nat.div_add_mod t n).symm
    rw [e]
    exact h (t / n) (t % n) (Nat.div_lt_of_lt_mul (by rw [Nat.mul_comm]; exact ht)) (Nat.mod_lt _ hn)
  · rw [List.getElem?_eq_none (by omega), List.getElem?_eq_none (by omega)]

namespace Image

theorem encode_read_width (s W H : Nat) (rest : List Byte) (hW : W ≤ 2147483647) :
    readInt32 (headerBytes s (toUInt32 W) (toUInt32 H) ++ rest) 18 = W := by
  rw [readInt32, headerBytes_width _ _ _ _ (toUInt32_lt _), toUInt32_natCast _ (by omega),
    toInt32_natCast _ hW]

theorem encode_read_height (s W H : Nat) (rest : List Byte) (hH : H ≤ 2147483647) :
    readInt32 (headerBytes s (toUInt32 W) (toUInt32 H) ++ rest) 22 = H := by
  rw [readInt32, headerBytes_height _ _ _ _ (toUInt32_lt _), toUInt32_natCast _ (by omega),
    toInt32_natCast _ hH]

/-- C1 (round trip). For every valid image with positive height and width, whatever its pixel
bytes, `save` emits a byte sequence, the file constructor accepts that sequence, and the image
it builds has the same height, the same width and the very same pixel buffer. -/
theorem decode_encode_roundtrip (img : Image) (hv : img.Valid)
    (hh : 0 < img.height_) (hw : 0 < img.width_) :
    ∃ bytes img', img.encode = .ok bytes ∧ decode bytes = .ok img' ∧
      img'.height = img.height ∧ img'.width = img.width ∧ img'.data_ = img.data_ := by
  obtain ⟨H, W, buf, eH, eW, eD, hl, hp, hH, hW⟩ := hv.shape
  obtain ⟨bitmap, henc, -, hbl, hbi⟩ := encode_spec img H W buf eH eW eD hl hp
  have hHpos : 0 < H := by rw [eH] at hh; exact_mod_cast hh
  have hW3 : W * 3 ≤ 2147483647 := by
    have : 1 * (W * 3) ≤ H * (W * 3) := Nat.mul_le_mul_right _ hHpos
    omega
  obtain ⟨out, hdec, hol, hoi⟩ := decode_spec
    (headerBytes (54 + H * (W * 3)) (toUInt32 W) (toUInt32 H) ++ bitmap) H W
    (encode_read_width _ _ _ _ hW) (encode_read_height _ _ _ _ hH) hW3 hp
    (by rw [List.length_append, headerBytes_length, hbl])
  have hob : out = buf := by
    apply eq_of_rows out buf H (W * 3) hol hl
    intro r j hr hj
    have hq : H - 1 - r + r + 1 = H := by omega
    rw [hoi (H - 1 - r) r j hq hj,
      List.getElem?_append_right (by rw [headerBytes_length]; omega), headerBytes_length,
      Nat.add_sub_cancel_left]
    exact hbi (H - 1 - r) r j hq hj
  exact ⟨_, _, henc, hdec, eH.symm, eW.symm, by rw [eD, hob]⟩

/-- The round trip of C1 on the 2 × 2 image `sample`. -/
theorem decode_encode_roundtrip_witness :
    ∃ bytes img', sample.encode = .ok bytes ∧ decode bytes = .ok img' ∧
      img'.height = 2 ∧ img'.width = 2 ∧
      img'.data_ = some [1, 2, 3, 4, 5, 6, 7, 8, 9, 10, 11, 12] :=
  decode_encode_roundtrip sample (by decide) (by decide) (by decide)

/-- C2 (header geometry). For every valid image (height and width non-negative, `h * w * 3`
an `int`), `save` emits exactly `54 + h * w * 3` bytes, with no row padding whatever `w * 3`
is, and bytes 18..21 and 22..25, read as little-endian signed 32-bit integers, are the width
and the height. -/
theorem encode_header_geometry (img : Image) (hv : img.Valid) :
    ∃ bytes, img.encode = .ok bytes ∧
      (bytes.length : Int) = 54 + img.height_ * img.width_ * 3 ∧
      readInt32 bytes 18 = img.width_ ∧ readInt32 bytes 22 = img.height_ := by
  obtain ⟨H, W, buf, eH, eW, eD, hl, hp, hH, hW⟩ := hv.shape
  obtain ⟨bitmap, henc, -, hbl, -⟩ := encode_spec img H W buf eH eW eD hl hp
  refine ⟨_, henc, ?_, ?_, ?_⟩
  · rw [List.length_append, headerBytes_length, hbl, eH, eW]
    push_cast; ring
  · rw [eW]; exact encode_read_width _ _ _ _ hW
  · rw [eH]; exact encode_read_height _ _ _ _ hH

theorem test20_valid : test20.Valid :=
  ⟨by decide, by decide, by decide, by decide, by decide,
    by show some (List.replicate 1200 (0 : Byte)).length = some 1200; rw [List.length_replicate]⟩

/-- The header geometry of C2 on the 20 × 20 image of `image_test.cpp`: 1254 bytes, both
fields 20. -/
theorem encode_header_geometry_witness :
    ∃ bytes, test20.encode = .ok bytes ∧
      (bytes.length : Int) = 54 + 20 * 20 * 3 ∧
      readInt32 bytes 18 = 20 ∧ readInt32 bytes 22 = 20 :=
  encode_header_geometry test20 test20_valid

theorem decode_overflow (bytes : List Byte) (hlen : 26 ≤ bytes.length)
    (h : INT_MAX < 3 * readInt32 bytes 18) : decode bytes = .error .undefinedBehaviour := by
  have hinfo : ¬ (bytes.take 54).length < 26 := by rw [List.length_take]; omega
  have hw' : readInt32 (bytes.take 54) 18 = readInt32 bytes 18 := by
    simp only [readInt32]; rw [readUInt32_take _ _ _ (by omega)]
  have e1 : checkedInt (3 * readInt32 bytes 18) = .error .undefinedBehaviour := by
    simp only [checkedInt]
    rw [if_neg (by omega)]
  simp only [decode, if_neg hinfo, hw', e1, bind, Except.bind]
  rfl

theorem pixel_index_lt (H W r c k : Nat) (hr : r < H) (hc : c < W) (hk : k < 3) :
    r * W * 3 + c * 3 + k < H * (W * 3) := by
  have h1 : (r + 1) * W ≤ H * W := Nat.mul_le_mul_right W hr
  rw [Nat.succ_mul] at h1
  rw [← Nat.mul_assoc]
  omega

/-- C3, as amended (top-down addressing on decode). For every file made of a 54-byte header
announcing width `w ≥ 0` and height `h ≥ 0`, with `3 * w` and `h * w * 3` both at most
`INT_MAX`, followed by `h * w * 3` pixel bytes, the file constructor returns an image of
height `h` and width `w` in which component `k` of pixel `(r, c)` is file byte
`54 + ((h - 1 - r) * w + c) * 3 + k`: memory row 0 is the last row of the file and memory
row `h - 1` the first. -/
theorem decode_top_down (file : List Byte) (h w : Nat)
    (hw : readInt32 file 18 = w) (hh : readInt32 file 22 = h)
    (hlen : file.length = 54 + h * w * 3)
    (hrow : 3 * w ≤ 2147483647) (hall : h * w * 3 ≤ 2147483647) :
    ∃ img, decode file = .ok img ∧ img.height = h ∧ img.width = w ∧
      ∀ r c k : Nat, r < h → c < w → k < 3 →
        ∃ b, img.colourAt r c k = .ok b ∧
          file[54 + ((h - 1 - r) * w + c) * 3 + k]? = some b := by
  have e : h * w * 3 = h * (w * 3) := Nat.mul_assoc _ _ _
  obtain ⟨out, hdec, hol, hoi⟩ := decode_spec file h w hw hh (by omega) (by omega) (by omega)
  refine ⟨_, hdec, rfl, rfl, ?_⟩
  intro r c k hr hc hk
  have hlt := pixel_index_lt h w r c k hr hc hk
  obtain ⟨b, hget⟩ : ∃ b, out[r * w * 3 + c * 3 + k]? = some b := by
    rw [List.getElem?_eq_getElem (by omega)]; exact ⟨_, rfl⟩
  refine ⟨b, colourAt_ok _ out r c k w b rfl rfl (by omega) hk hget, ?_⟩
  rw [← hget]
  have hq : h - 1 - r + r + 1 = h := by omega
  have := hoi (h - 1 - r) r (c * 3 + k) hq (by omega)
  have i1 : r * (w * 3) + (c * 3 + k) = r * w * 3 + c * 3 + k := by ring
  have i2 : 54 + ((h - 1 - r) * (w * 3) + (c * 3 + k)) = 54 + ((h - 1 - r) * w + c) * 3 + k := by
    ring
  rw [i1, i2] at this
  exact this.symm

/-- The addressing of C3 on a 2 × 2 file. -/
theorem decode_top_down_witness :
    ∃ img, decode (headerBytes 66 2 2 ++ [1, 2, 3, 4, 5, 6, 7, 8, 9, 10, 11, 12]) = .ok img ∧
      img.height = (2 : Nat) ∧ img.width = (2 : Nat) ∧
      ∀ r c k : Nat, r < 2 → c < 2 → k < 3 →
        ∃ b, img.colourAt r c k = .ok b ∧
          (headerBytes 66 2 2 ++ [1, 2, 3, 4, 5, 6, 7, 8, 9, 10, 11, 12])[54 + ((2 - 1 - r) * 2 + c) * 3 + k]?
            = some b :=
  decode_top_down (headerBytes 66 2 2 ++ [1, 2, 3, 4, 5, 6, 7, 8, 9, 10, 11, 12]) 2 2
    (by decide) (by decide) (by decide) (by decide) (by decide)

/-- C3 as stated fails: `hugeFile` is a 54-byte header announcing width `2^30` and height 1
followed by exactly `1 * 2^30 * 3` pixel bytes, and the file constructor, whose
`int size = 3 * width_` leaves the range of `int`, builds no image from it. -/
theorem decode_top_down_counterexample :
    hugeFile.length = 54 + 1 * 1073741824 * 3 ∧
      readInt32 hugeFile 18 = 1073741824 ∧ readInt32 hugeFile 22 = 1 ∧
      decode hugeFile = .error .undefinedBehaviour := by
  have hl : hugeFile.length = 54 + 1 * 1073741824 * 3 := by
    rw [hugeFile, List.length_append, headerBytes_length, List.length_replicate]
  have hw : readInt32 hugeFile 18 = 1073741824 := by
    rw [hugeFile, readInt32, headerBytes_width _ _ _ _ (by decide)]
    decide
  have hh : readInt32 hugeFile 22 = 1 := by
    rw [hugeFile, readInt32, headerBytes_height _ _ _ _ (by decide)]
    decide
  refine ⟨hl, hw, hh, decode_overflow _ (by rw [hl]; decide) ?_⟩
  rw [hw]
  decide





/-- C4 (bottom-up pixel order on encode). For every valid image of height `h` and width `w`,
with buffer `buf`, `save` emits 54 header bytes and then the `h * w * 3` bytes of `buf`, row by
row from the last to the first: for all `r < h`, `c < w`, `k < 3`, byte
`54 + ((h - 1 - r) * w + c) * 3 + k` of the output is the buffer byte `buf[(r * w + c) * 3 + k]`,
which is component `k` (blue 0, green 1, red 2) of pixel `(r, c)`; and the row written in
position `q` is memory row `h - 1 - q`, so memory row `h - 1` is written first and memory row
0 last, columns left to right, bytes blue, green, red. -/
theorem encode_bottom_up (img : Image) (hv : img.Valid) :
    ∃ bytes buf, img.encode = .ok bytes ∧ img.data_ = some buf ∧
      bytes.length = 54 + buf.length ∧
      (∀ r c k : Nat, (r : Int) < img.height_ → (c : Int) < img.width_ → k < 3 →
        ∃ b, buf[(r * img.width_.toNat + c) * 3 + k]? = some b ∧
          img.colourAt r c k = .ok b ∧
          bytes[54 + ((img.height_.toNat - 1 - r) * img.width_.toNat + c) * 3 + k]? = some b) ∧
      ∀ q j : Nat, q < img.height_.toNat → j < img.width_.toNat * 3 →
        bytes[54 + (q * (img.width_.toNat * 3) + j)]?
          = buf[(img.height_.toNat - 1 - q) * (img.width_.toNat * 3) + j]? := by
  obtain ⟨H, W, buf, eH, eW, eD, hl, hp, hH, hW⟩ := hv.shape
  obtain ⟨bitmap, henc, -, hbl, hbi⟩ := encode_spec img H W buf eH eW eD hl hp
  have hskip : ∀ t, (headerBytes (54 + H * (W * 3)) (toUInt32 W) (toUInt32 H) ++ bitmap)[54 + t]?
      = bitmap[t]? := by
    intro t
    rw [List.getElem?_append_right (by rw [headerBytes_length]; omega), headerBytes_length,
      Nat.add_sub_cancel_left]
  refine ⟨_, buf, henc, eD, by rw [List.length_append, headerBytes_length, hbl, hl], ?_, ?_⟩
  · intro r c k hr hc hk
    rw [eH] at hr
    rw [eW] at hc
    have hr' : r < H := by exact_mod_cast hr
    have hc' : c < W := by exact_mod_cast hc
    have hlt := pixel_index_lt H W r c k hr' hc' hk
    obtain ⟨b, hget⟩ : ∃ b, buf[r * W * 3 + c * 3 + k]? = some b := by
      rw [List.getElem?_eq_getElem (by omega)]; exact ⟨_, rfl⟩
    have i0 : (r * W + c) * 3 + k = r * W * 3 + c * 3 + k := by ring
    refine ⟨b, by rw [eW, Int.toNat_ofNat, i0]; exact hget,
      colourAt_ok img buf r c k W b eD eW (by omega) hk hget, ?_⟩
    rw [← hget, eH, eW, Int.toNat_ofNat, Int.toNat_ofNat]
    have hq : H - 1 - r + r + 1 = H := by omega
    have := hbi (H - 1 - r) r (c * 3 + k) hq (by omega)
    have i1 : r * (W * 3) + (c * 3 + k) = r * W * 3 + c * 3 + k := by ring
    have i2 : (H - 1 - r) * (W * 3) + (c * 3 + k) = ((H - 1 - r) * W + c) * 3 + k := by ring
    rw [i1, i2] at this
    rw [← this, ← hskip]
    congr 1
    omega
  · intro q j hq hj
    rw [eH, Int.toNat_ofNat] at hq
    rw [eW, Int.toNat_ofNat] at hj
    rw [eH, eW, Int.toNat_ofNat, Int.toNat_ofNat, hskip]
    exact hbi q (H - 1 - q) j (by omega) hj

/-- The pixel order of C4 on the 2 × 2 image `sample`, whose buffer is `1, …, 12`: after the
header `save` writes `7, …, 12` (memory row 1) and then `1, …, 6` (memory row 0). -/
theorem encode_bottom_up_witness :
    (∃ bytes buf, sample.encode = .ok bytes ∧ sample.data_ = some buf ∧
      bytes.length = 54 + buf.length ∧
      (∀ r c k : Nat, (r : Int) < 2 → (c : Int) < 2 → k < 3 →
        ∃ b, buf[(r * (2 : Int).toNat + c) * 3 + k]? = some b ∧
          sample.colourAt r c k = .ok b ∧
          bytes[54 + (((2 : Int).toNat - 1 - r) * (2 : Int).toNat + c) * 3 + k]? = some b) ∧
      ∀ q j : Nat, q < (2 : Int).toNat → j < (2 : Int).toNat * 3 →
        bytes[54 + (q * ((2 : Int).toNat * 3) + j)]?
          = buf[((2 : Int).toNat - 1 - q) * ((2 : Int).toNat * 3) + j]?) ∧
      sample.data_ = some [1, 2, 3, 4, 5, 6, 7, 8, 9, 10, 11, 12] ∧
      sample.encode.map (List.drop 54) = .ok [7, 8, 9, 10, 11, 12, 1, 2, 3, 4, 5, 6] :=
  ⟨encode_bottom_up sample (by decide), by decide, by decide⟩

theorem headerBytes_eq (s w h : Nat) :
    headerBytes s w h =
      [0x42, 0x4D] ++ le32 s ++ [0, 0] ++ [0, 0] ++ [0x36, 0, 0, 0]
        ++ [40, 0, 0, 0] ++ le32 w ++ le32 h ++ [1, 0] ++ [24, 0]
        ++ [0, 0, 0, 0] ++ [0, 0, 0, 0] ++ [0x88, 0x13, 0, 0] ++ [0x88, 0x13, 0, 0]
        ++ [0, 0, 0, 0] ++ [0, 0, 0, 0] := by
  simp only [headerBytes, le16, le32, List.cons_append, List.nil_append, List.append_assoc]
  rfl

/-- C5 (header contents). For every valid image, the first 54 bytes that `save` emits are, in
order: `0x42, 0x4D`; the file size (the number of bytes emitted) as 4 little-endian bytes; two
2-byte zero reserved fields; the pixel-data offset 54; the info-header size 40; the width; the
height; planes 1 and bits per pixel 24 on 2 bytes each; compression 0; image size 0;
x- and y-resolution 5000; colours used 0; important colours 0 — which puts the fields at
offsets 0, 2, 6, 8, 10, 14, 18, 22, 26, 28, 30, 34, 38, 42, 46, 50. -/
theorem encode_header_contents (img : Image) (hv : img.Valid) :
    ∃ bytes, img.encode = .ok bytes ∧
      bytes.take 54 =
        [0x42, 0x4D] ++ le32 bytes.length ++ [0, 0] ++ [0, 0] ++ [0x36, 0, 0, 0]
          ++ [40, 0, 0, 0] ++ le32 (toUInt32 img.width_) ++ le32 (toUInt32 img.height_)
          ++ [1, 0] ++ [24, 0]
          ++ [0, 0, 0, 0] ++ [0, 0, 0, 0] ++ [0x88, 0x13, 0, 0] ++ [0x88, 0x13, 0, 0]
          ++ [0, 0, 0, 0] ++ [0, 0, 0, 0] ∧
      readUInt32 bytes 2 = bytes.length ∧ readUInt16 bytes 6 = 0 ∧ readUInt16 bytes 8 = 0 ∧
      readUInt32 bytes 10 = 54 ∧ readUInt32 bytes 14 = 40 ∧
      readInt32 bytes 18 = img.width_ ∧ readInt32 bytes 22 = img.height_ ∧
      readUInt16 bytes 26 = 1 ∧ readUInt16 bytes 28 = 24 ∧
      readUInt32 bytes 30 = 0 ∧ readUInt32 bytes 34 = 0 ∧
      readInt32 bytes 38 = 5000 ∧ readInt32 bytes 42 = 5000 ∧
      readUInt32 bytes 46 = 0 ∧ readUInt32 bytes 50 = 0 := by
  obtain ⟨H, W, buf, eH, eW, eD, hl, hp, hH, hW⟩ := hv.shape
  obtain ⟨bitmap, henc, -, hbl, -⟩ := encode_spec img H W buf eH eW eD hl hp
  have hlen : (headerBytes (54 + H * (W * 3)) (toUInt32 W) (toUInt32 H) ++ bitmap).length
      = 54 + H * (W * 3) := by rw [List.length_append, headerBytes_length, hbl]
  refine ⟨_, henc, ?_, ?_, ?_, ?_, ?_, ?_, ?_, ?_, ?_, ?_, ?_, ?_, ?_, ?_, ?_, ?_⟩
  · rw [List.take_left' (headerBytes_length _ _ _), hlen, eW, eH]
    exact headerBytes_eq _ _ _
  · rw [hlen]; exact headerBytes_size _ _ _ _ (by omega)
  all_goals first
    | (rw [eW]; exact encode_read_width _ _ _ _ hW)
    | (rw [eH]; exact encode_read_height _ _ _ _ hH)
    | (simp only [headerBytes, le16, le32, readUInt32, readUInt16, readInt32, List.cons_append,
        List.nil_append, List.getD_cons_succ, List.getD_cons_zero, List.append_assoc]; rfl)

/-- The header of C5 for the 2 × 2 image `sample`. -/
theorem encode_header_contents_witness :
    ∃ bytes, sample.encode = .ok bytes ∧
      bytes.take 54 =
        [0x42, 0x4D] ++ le32 bytes.length ++ [0, 0] ++ [0, 0] ++ [0x36, 0, 0, 0]
          ++ [40, 0, 0, 0] ++ le32 (toUInt32 2) ++ le32 (toUInt32 2)
          ++ [1, 0] ++ [24, 0]
          ++ [0, 0, 0, 0] ++ [0, 0, 0, 0] ++ [0x88, 0x13, 0, 0] ++ [0x88, 0x13, 0, 0]
          ++ [0, 0, 0, 0] ++ [0, 0, 0, 0] ∧
      readUInt32 bytes 2 = bytes.length ∧ readUInt16 bytes 6 = 0 ∧ readUInt16 bytes 8 = 0 ∧
      readUInt32 bytes 10 = 54 ∧ readUInt32 bytes 14 = 40 ∧
      readInt32 bytes 18 = 2 ∧ readInt32 bytes 22 = 2 ∧
      readUInt16 bytes 26 = 1 ∧ readUInt16 bytes 28 = 24 ∧
      readUInt32 bytes 30 = 0 ∧ readUInt32 bytes 34 = 0 ∧
      readInt32 bytes 38 = 5000 ∧ readInt32 bytes 42 = 5000 ∧
      readUInt32 bytes 46 = 0 ∧ readUInt32 bytes 50 = 0 :=
  encode_header_contents sample (by decide)

/-- C6, as amended (file-size field). For every valid image of height `H` and width `W`, the
4-byte little-endian field at offset 2 of what `save` emits equals `2 + 12 + 40 + H * W * 3`,
that is `54 + H * W * 3`: `sizeof(BMPheader)` is 12, the magic number being counted apart. -/
theorem encode_size_field (img : Image) (hv : img.Valid) :
    ∃ bytes, img.encode = .ok bytes ∧
      (readUInt32 bytes 2 : Int) = 2 + 12 + 40 + img.height_ * img.width_ * 3 := by
  obtain ⟨H, W, buf, eH, eW, eD, hl, hp, hH, hW⟩ := hv.shape
  obtain ⟨bitmap, henc, -, hbl, -⟩ := encode_spec img H W buf eH eW eD hl hp
  refine ⟨_, henc, ?_⟩
  rw [headerBytes_size _ _ _ _ (by omega), eH, eW]
  push_cast; ring

/-- The size field of C6 for the 2 × 2 image `sample`. -/
theorem encode_size_field_witness :
    ∃ bytes, sample.encode = .ok bytes ∧ (readUInt32 bytes 2 : Int) = 2 + 12 + 40 + 2 * 2 * 3 :=
  encode_size_field sample (by decide)

/-- C6 as stated fails: for the 2 × 2 image `sample` the field at offset 2 holds 66, which is
`54 + 2 * 2 * 3` and not `2 + 14 + 40 + 2 * 2 * 3 = 68`. -/
theorem encode_size_field_counterexample :
    sample.Valid ∧ sample.height = 2 ∧ sample.width = 2 ∧
      sample.encode.map (fun bytes => readUInt32 bytes 2) = .ok 66 ∧
      (66 : Int) ≠ 2 + 14 + 40 + 2 * 2 * 3 := by
  decide

/-- C7 on the code: constructing an image from the openable path `test.bmp` yields the
2 × 2 image stored there with `name()` equal to the empty string, not to `test.bmp`, and
destroying that image saves nothing, whatever the file system. -/
theorem fromFile_leaves_name_empty :
    fromFile testFs "test.bmp" =
        .ok { height_ := 2, width_ := 2,
              data_ := some [7, 8, 9, 10, 11, 12, 1, 2, 3, 4, 5, 6], name_ := "" } ∧
      (fromFile testFs "test.bmp").map name = .ok "" ∧
      ∀ fs, ((fromFile testFs "test.bmp").bind fun img => img.destroy fs) = .ok fs := by
  have h : fromFile testFs "test.bmp" =
      .ok { height_ := 2, width_ := 2,
            data_ := some [7, 8, 9, 10, 11, 12, 1, 2, 3, 4, 5, 6], name_ := "" } := by decide
  refine ⟨h, by rw [h]; rfl, ?_⟩
  intro fs
  rw [h]
  rfl

/-- C8, as amended (zero fill). For every `h ≥ 0` and `w ≥ 0` with `h * w * 3 ≤ INT_MAX`, the
constructor `Image(name, h, w)` returns an image of height `h`, width `w` and name `name` whose
buffer has `h * w * 3` bytes, all zero, so that every component of every pixel reads 0; and
`Image(h, w)` is `Image("", h, w)`. -/
theorem new_zero_filled (h w : Int) (hh : 0 ≤ h) (hw : 0 ≤ w) (hp : h * w * 3 ≤ INT_MAX) :
    (∀ name : String, ∃ img buf, new name h w = .ok img ∧
      img.height = h ∧ img.width = w ∧ img.name = name ∧
      img.data_ = some buf ∧ (buf.length : Int) = h * w * 3 ∧ (∀ b ∈ buf, b = 0) ∧
      ∀ r c k : Nat, (r : Int) < h → (c : Int) < w → k < 3 → img.colourAt r c k = .ok 0) ∧
    newUnnamed h w = new "" h w := by
  refine ⟨?_, rfl⟩
  intro name
  obtain ⟨H, rfl⟩ := Int.eq_ofNat_of_zero_le hh
  obtain ⟨W, rfl⟩ := Int.eq_ofNat_of_zero_le hw
  have e : ((H : Int) * (W : Int) * 3) = ((H * W * 3 : Nat) : Int) := by push_cast; ring
  rw [e] at hp
  simp only [INT_MAX] at hp
  have hp' : H * W * 3 ≤ 2147483647 := by exact_mod_cast hp
  have h1 : H * W ≤ H * W * 3 := Nat.le_mul_of_pos_right _ (by decide)
  have e1 : checkedInt ((H : Int) * (W : Int)) = .ok ((H * W : Nat) : Int) := by
    rw [← Nat.cast_mul]
    apply checkedInt_ok <;> simp only [INT_MIN, INT_MAX] <;> omega
  have e2 : checkedInt (((H * W : Nat) : Int) * 3) = .ok ((H * W * 3 : Nat) : Int) := by
    have : ((H * W : Nat) : Int) * 3 = ((H * W * 3 : Nat) : Int) := by push_cast; ring
    rw [this]
    apply checkedInt_ok <;> simp only [INT_MIN, INT_MAX] <;> omega
  have e3 : ¬ (((H * W * 3 : Nat) : Int) < 0) := by omega
  have hnew : new name H W = .ok
      ⟨(H : Int), (W : Int), some (List.replicate (H * W * 3) 0), name⟩ := by
    simp only [new, e1, e2, if_neg e3, bind, Except.bind, Int.toNat_ofNat]
    rfl
  refine ⟨_, _, hnew, rfl, rfl, rfl, rfl, ?_, ?_, ?_⟩
  · rw [List.length_replicate, e]
  · intro b hb
    exact List.eq_of_mem_replicate hb
  · intro r c k hr hc hk
    have hr' : r < H := by exact_mod_cast hr
    have hc' : c < W := by exact_mod_cast hc
    have hlt := pixel_index_lt H W r c k hr' hc' hk
    rw [← Nat.mul_assoc] at hlt
    apply colourAt_ok _ (List.replicate (H * W * 3) 0) r c k W 0 rfl rfl
      (by rw [List.length_replicate]; exact hp') hk
    rw [List.getElem?_replicate, if_pos hlt]

/-- The zero fill of C8 for 20 × 20 images. -/
theorem new_zero_filled_witness :
    (∀ name : String, ∃ img buf, new name 20 20 = .ok img ∧
      img.height = 20 ∧ img.width = 20 ∧ img.name = name ∧
      img.data_ = some buf ∧ (buf.length : Int) = 20 * 20 * 3 ∧ (∀ b ∈ buf, b = 0) ∧
      ∀ r c k : Nat, (r : Int) < 20 → (c : Int) < 20 → k < 3 → img.colourAt r c k = .ok 0) ∧
    newUnnamed 20 20 = new "" 20 20 :=
  new_zero_filled 20 20 (by decide) (by decide) (by decide)

/-- C8 as stated fails: for `h = w = 30000`, both non-negative, `height * width * 3` is
2 700 000 000, outside the range of `int`, and neither constructor returns an image. -/
theorem new_zero_filled_counterexample :
    (0 : Int) ≤ 30000 ∧ newUnnamed 30000 30000 = .error .undefinedBehaviour ∧
      new "big.bmp" 30000 30000 = .error .undefinedBehaviour := by
  decide

/-- C9 (discard suppresses save). For every image — whatever its name, its dimensions and
the bytes written to its pixels — and every state of the file system, destroying the image
after `discard()` returns normally and leaves the file system exactly as it was. -/
theorem discard_then_destroy (img : Image) (fs : FileSystem) :
    img.discard.name = "" ∧ img.discard.destroy fs = .ok fs := by
  refine ⟨rfl, ?_⟩
  simp [destroy, discard]





/-- The method `save` writes exactly the bytes of `encode` to the file called `name_`, or
throws when that file cannot be opened. -/
theorem save_of_encode (img : Image) (fs : FileSystem) (bytes : List Byte)
    (h : img.encode = .ok bytes) :
    img.save fs = if fs.writable img.name_ = true then .ok (fs.write img.name_ bytes)
      else .error (.runtimeError ("Could not write file: " ++ img.name_)) := by
  simp only [encode, bind, Except.bind, pure, Except.pure] at h
  simp only [save, bind, Except.bind, pure, Except.pure]
  cases hh : img.saveHeader with
  | error e => rw [hh] at h; cases h
  | ok header =>
    rw [hh] at h
    simp only at h ⊢
    cases hb : img.saveRows img.height_.toNat with
    | error e => rw [hb] at h; cases h
    | ok bitmap =>
      rw [hb] at h
      simp only [Except.ok.injEq] at h
      cases hwr : fs.writable img.name_ with
      | false => simp [throw, throwThe, MonadExceptOf.throw]
      | true => simp [h]

theorem saveRow_setName (img : Image) (newName : String) (x : Int) :
    (img.setName newName).saveRow x = img.saveRow x := rfl

theorem saveRows_setName (img : Image) (newName : String) (rows : Nat) :
    (img.setName newName).saveRows rows = img.saveRows rows := by
  induction rows with
  | zero => rfl
  | succ m ih => simp only [saveRows, ih, saveRow_setName]

theorem encode_setName (img : Image) (newName : String) :
    (img.setName newName).encode = img.encode := by
  simp only [encode, saveRows_setName]
  rfl

/-- C10, as amended (name redirection). For every valid image and every non-empty `newName`,
after `setName(newName)` the method `name()` returns `newName`; if `newName` can be opened
for writing, destruction writes the encoded image to `newName` and changes no other file (so
not the one named at construction); if it cannot, destruction ends in `std::terminate` with
the message `Could not write file: newName` and nothing is written. -/
theorem setName_redirects_save (img : Image) (hv : img.Valid) (newName : String)
    (hne : newName ≠ "") (fs : FileSystem) :
    (img.setName newName).name = newName ∧
    ∃ bytes, img.encode = .ok bytes ∧
      (fs.writable newName = true →
        ∃ fs', (img.setName newName).destroy fs = .ok fs' ∧
          fs'.content newName = some bytes ∧
          ∀ p, p ≠ newName → fs'.content p = fs.content p) ∧
      (fs.writable newName = false →
        (img.setName newName).destroy fs
          = .error (.terminate ("Could not write file: " ++ newName))) := by
  obtain ⟨H, W, buf, eH, eW, eD, hl, hp, hH, hW⟩ := hv.shape
  obtain ⟨bitmap, henc, -, -, -⟩ := encode_spec img H W buf eH eW eD hl hp
  have hsave := save_of_encode (img.setName newName) fs _ ((encode_setName img newName).trans henc)
  have hcond : (img.setName newName).name_ ≠ "" ∧ (img.setName newName).data_.isSome = true :=
    ⟨hne, by simp [setName, eD]⟩
  refine ⟨rfl, _, henc, ?_, ?_⟩
  · intro hwr
    refine ⟨fs.write newName
      (headerBytes (54 + H * (W * 3)) (toUInt32 W) (toUInt32 H) ++ bitmap), ?_,
      by simp [FileSystem.write], ?_⟩
    · simp only [destroy, if_pos hcond, hsave]
      simp [setName, hwr]
    · intro p hp
      simp [FileSystem.write, hp]
  · intro hwr
    simp only [destroy, if_pos hcond, hsave]
    simp [setName, hwr]

/-- The redirection of C10 for `sample` renamed `b.bmp` in the file system `testFs`. -/
theorem setName_redirects_save_witness :
    (sample.setName "b.bmp").name = "b.bmp" ∧
    ∃ bytes, sample.encode = .ok bytes ∧
      (testFs.writable "b.bmp" = true →
        ∃ fs', (sample.setName "b.bmp").destroy testFs = .ok fs' ∧
          fs'.content "b.bmp" = some bytes ∧
          ∀ p, p ≠ "b.bmp" → fs'.content p = testFs.content p) ∧
      (testFs.writable "b.bmp" = false →
        (sample.setName "b.bmp").destroy testFs
          = .error (.terminate ("Could not write file: " ++ "b.bmp"))) :=
  setName_redirects_save sample (by decide) "b.bmp" (by decide) testFs

/-- C10 as stated fails: `sample` has a buffer and `b.bmp` is a non-empty name, yet in a file
system where `b.bmp` cannot be opened for writing the destruction after `setName("b.bmp")`
writes nothing: `save` throws and the program terminates. -/
theorem setName_redirects_save_counterexample :
    sample.data_.isSome = true ∧ "b.bmp" ≠ "" ∧
      (sample.setName "b.bmp").destroy lockedFs
        = .error (.terminate "Could not write file: b.bmp") := by
  refine ⟨by decide, by decide, ?_⟩
  rfl

/-- In a file system where nothing can be opened for writing, `save` never returns. -/
theorem save_lockedFs (img : Image) : ∃ e, img.save lockedFs = .error e := by
  simp only [save, bind, Except.bind]
  cases img.saveHeader with
  | error e => exact ⟨e, rfl⟩
  | ok header => exact ⟨_, rfl⟩

/-- C11, as amended (auto-save). For every image state, destruction performs no automatic
save — it returns normally and leaves every file system as it is — if and only if the name is
empty or the image has no buffer; the destructor calls `save` exactly when the name is
non-empty and the buffer exists. -/
theorem destroy_saves_iff (img : Image) :
    ((∀ fs, img.destroy fs = .ok fs) ↔ (img.name = "" ∨ img.data_ = none)) ∧
      ((img.name ≠ "" ∧ img.data_ ≠ none) → ∀ fs, (img.destroy fs).isOk = (img.save fs).isOk ∧
        ∀ fs', img.save fs = .ok fs' → img.destroy fs = .ok fs') := by
  constructor
  · constructor
    · intro h
      by_cases hn : img.name_ = ""
      · exact Or.inl hn
      · right
        cases hd : img.data_ with
        | none => rfl
        | some buf =>
          exfalso
          have hcond : img.name_ ≠ "" ∧ img.data_.isSome = true := ⟨hn, by rw [hd]; rfl⟩
          have h1 := h lockedFs
          obtain ⟨e, he⟩ := save_lockedFs img
          simp only [destroy, if_pos hcond, he] at h1
          cases e <;> cases h1
    · intro h fs
      have hcond : ¬ (img.name_ ≠ "" ∧ img.data_.isSome = true) := by
        rintro ⟨h1, h2⟩
        rcases h with h | h
        · exact h1 h
        · rw [h] at h2; cases h2
      simp only [destroy, if_neg hcond]
  · rintro ⟨hn, hd⟩ fs
    have hcond : img.name_ ≠ "" ∧ img.data_.isSome = true := by
      refine ⟨hn, ?_⟩
      cases hb : img.data_ with
      | none => exact absurd hb hd
      | some buf => rfl
    simp only [destroy, if_pos hcond]
    cases hs : img.save fs with
    | ok fs' => exact ⟨rfl, fun _ h => h⟩
    | error e => cases e <;> exact ⟨rfl, fun _ h => by cases h⟩

/-- C11 as stated fails: the default-constructed image given the name `x.bmp` has a
non-empty name, yet its destruction saves nothing, in whatever file system. -/
theorem destroy_saves_iff_counterexample :
    ¬ ((∀ fs, (blank.setName "x.bmp").destroy fs = .ok fs) ↔ (blank.setName "x.bmp").name = "") := by
  intro h
  have h1 : (blank.setName "x.bmp").name = "" := h.mp (fun fs => rfl)
  revert h1
  decide

/-- On the default-constructed image, `operator[](row)[col]` is the null pointer itself or
undefined pointer arithmetic. -/
theorem blank_pixel (row col : Int) :
    blank.pixel row col = .error .undefinedBehaviour ∨ blank.pixel row col = .ok 0 := by
  have hsub : blank.subArray row = .ok 0 := by
    simp [subArray, blank, checkedInt, INT_MIN, INT_MAX, pointer, size, bind, Except.bind]
  simp only [pixel, hsub, bind, Except.bind, point, checkedInt]
  by_cases h1 : INT_MIN ≤ col * 3 ∧ col * 3 ≤ INT_MAX
  · rw [if_pos h1]
    simp only [pointer]
    by_cases h2 : 0 ≤ ((0 : Nat) : Int) + col * 3 ∧ ((0 : Nat) : Int) + col * 3 ≤ (blank.size : Int)
    · rw [if_pos h2]
      right
      have : blank.size = 0 := rfl
      rw [this] at h2
      congr 1
      omega
    · rw [if_neg h2]; left; rfl
  · rw [if_neg h1]; left; rfl

/-- C12, as amended (default instance). For the default-constructed image (height and width
0, no buffer) and every row, column and component, `image[row][col]` is computed without any
check and no invalid-access error is raised: reading a component or a member, assigning one,
and `setColour` are all undefined behaviour (an access through the null pointer), so no pixel
value is ever yielded. -/
theorem blank_access_undefined (row col colour : Int) (m : Member) (v b g r : Byte) :
    blank.height = 0 ∧ blank.width = 0 ∧ blank.data_ = none ∧
      blank.colourAt row col colour = .error .undefinedBehaviour ∧
      blank.member row col m = .error .undefinedBehaviour ∧
      blank.setColourAt row col colour v = .error .undefinedBehaviour ∧
      blank.setMember row col m v = .error .undefinedBehaviour ∧
      blank.setColour row col b g r = .error .undefinedBehaviour := by
  have hc : blank.colourAt row col colour
      = (blank.pixel row col).bind fun pt =>
          if colour < 0 ∨ 3 ≤ colour then .error .undefinedBehaviour
          else .error .undefinedBehaviour := by
    simp only [colourAt, pixel, bind, Except.bind]
    cases blank.subArray row with
    | error e => rfl
    | ok sub =>
      simp only
      cases blank.point sub col with
      | error e => rfl
      | ok pt =>
        simp only
        split <;> rfl
  refine ⟨rfl, rfl, rfl, ?_, ?_, ?_, ?_, ?_⟩
  · rw [hc]
    rcases blank_pixel row col with h | h <;> rw [h]
    · rfl
    · simp only [Except.bind]; split <;> rfl
  · rcases blank_pixel row col with h | h <;> simp only [member, h, bind, Except.bind]
    rfl
  · rcases blank_pixel row col with h | h <;> simp only [setColourAt, h, bind, Except.bind]
    split <;> rfl
  · rcases blank_pixel row col with h | h <;> simp only [setMember, h, bind, Except.bind]
    rfl
  · rcases blank_pixel row col with h | h <;> simp only [setColour, h, bind, Except.bind]
    rfl

/-- C12 as stated fails: on the default-constructed image `image[0][0][0]` is an unchecked
access through the null pointer; the code raises no error of any kind there. -/
theorem blank_access_undefined_counterexample :
    blank.colourAt 0 0 0 = .error .undefinedBehaviour ∧
      ¬ ∃ what, blank.colourAt 0 0 0 = .error (.runtimeError what) := by
  refine ⟨by decide, ?_⟩
  rintro ⟨what, h⟩
  have h2 : blank.colourAt 0 0 0 = .error .undefinedBehaviour := by decide
  rw [h2] at h
  cases h

theorem pixel_ok (img : Image) (buf : List Byte) (r c H W : Nat)
    (hd : img.data_ = some buf) (hw : img.width_ = W) (hl : buf.length = H * (W * 3))
    (hsz : buf.length ≤ 2147483647) (hr : r < H) (hc : c < W) :
    img.pixel r c = .ok (r * W * 3 + c * 3) := by
  have hsize : img.size = buf.length := by simp [size, hd]
  have hlt := pixel_index_lt H W r c 0 hr hc (by decide)
  have e1 := subArray_ok img r W hw (by omega) (by omega)
  have e2 := point_ok img (r * W * 3) c (by omega) (by omega)
  simp only [pixel, e1, e2, bind, Except.bind]

theorem load_ok (img : Image) (buf : List Byte) (addr : Nat) (b : Byte)
    (hd : img.data_ = some buf) (hb : buf[addr]? = some b) : img.load addr = .ok b := by
  simp only [load, hd, hb]

/-- Storing one byte inside the buffer succeeds and changes that byte only. -/
theorem store_byte (img : Image) (buf : List Byte) (addr : Nat) (v : Byte)
    (hd : img.data_ = some buf) (hlt : addr < buf.length) :
    ∃ out, img.store addr [v] = .ok { img with data_ := some out } ∧
      out.length = buf.length ∧ out[addr]? = some v ∧
      ∀ t, t ≠ addr → out[t]? = buf[t]? := by
  have hin : addr + [v].length ≤ buf.length := by simp only [List.length_singleton]; omega
  refine ⟨buf.take addr ++ [v] ++ buf.drop (addr + [v].length), ?_, length_splice _ _ _ hin, ?_, ?_⟩
  · simp only [store, hd, if_pos hin]
  · rw [getElem?_splice _ _ _ _ hin, if_neg (by omega), if_pos (by simp), Nat.sub_self]
    rfl
  · intro t ht
    rw [getElem?_splice _ _ _ _ hin]
    rcases Nat.lt_or_ge t addr with h | h
    · rw [if_pos h]
    · rw [if_neg (by omega), if_neg (by simp only [List.length_singleton]; omega)]

/-- Two in-range `(row, column, component)` triples with the same byte offset are the same. -/
theorem pixel_index_inj (W r c k r' c' k' : Nat) (hc : c < W) (hk : k < 3)
    (hc' : c' < W) (hk' : k' < 3)
    (h : r * W * 3 + c * 3 + k = r' * W * 3 + c' * 3 + k') : r = r' ∧ c = c' ∧ k = k' := by
  have h1 : r * W + c = r' * W + c' ∧ k = k' := by omega
  have hrr : r = r' := by
    rcases Nat.lt_trichotomy r r' with hlt | heq | hgt
    · have := Nat.mul_le_mul_right W hlt
      rw [Nat.succ_mul] at this
      omega
    · exact heq
    · have := Nat.mul_le_mul_right W hgt
      rw [Nat.succ_mul] at this
      omega
  subst hrr
  exact ⟨rfl, by omega, h1.2⟩

/-- The three stores of `setColour` on a `Point` that lies inside the buffer. -/
theorem setColour_spec (img : Image) (buf : List Byte) (hei width : Int) (pt : Nat)
    (b g r : Byte) (hd : img.data_ = some buf) (hp : img.pixel hei width = .ok pt)
    (hlt : pt + 3 ≤ buf.length) :
    ∃ out, img.setColour hei width b g r = .ok { img with data_ := some out } ∧
      out.length = buf.length ∧
      out[pt]? = some b ∧ out[pt + 1]? = some g ∧ out[pt + 2]? = some r ∧
      ∀ t, (t < pt ∨ pt + 3 ≤ t) → out[t]? = buf[t]? := by
  obtain ⟨o1, s1, l1, g1, r1⟩ := store_byte img buf pt b hd (by omega)
  obtain ⟨o2, s2, l2, g2, r2⟩ := store_byte { img with data_ := some o1 } o1 (pt + 1) g rfl
    (by omega)
  obtain ⟨o3, s3, l3, g3, r3⟩ := store_byte { img with data_ := some o2 } o2 (pt + 2) r rfl
    (by omega)
  refine ⟨o3, ?_, by omega, ?_, ?_, g3, ?_⟩
  · simp only [setColour, hp, Member.offset, Nat.add_zero, s1, s2, s3, bind, Except.bind]
  · rw [r3 pt (by omega), r2 pt (by omega), g1]
  · rw [r3 (pt + 1) (by omega), g2]
  · intro t ht
    rw [r3 t (by omega), r2 t (by omega), r1 t (by omega)]

/-- C13 (pixel addressing). For every valid image of height `h` and width `w` and every
`row < h`, `col < w`, `image[row][col]` is the `Point` at buffer offset `(row * w + col) * 3`:
its three bytes are what `[0]`, `[1]`, `[2]` read, `blue` is the byte of component 0, `green`
of component 1 and `red` of component 2 (a value assigned to a member is read back through
the component of the same offset), and after `setColour(b, g, r)` the three bytes are
`b, g, r` in that order, every other byte and the dimensions being as before. -/
theorem pixel_view (img : Image) (hv : img.Valid) (row col : Nat)
    (hr : (row : Int) < img.height_) (hc : (col : Int) < img.width_) :
    ∃ buf b0 b1 b2,
      img.data_ = some buf ∧
      img.pixel row col = .ok ((row * img.width_.toNat + col) * 3) ∧
      buf[(row * img.width_.toNat + col) * 3]? = some b0 ∧
      buf[(row * img.width_.toNat + col) * 3 + 1]? = some b1 ∧
      buf[(row * img.width_.toNat + col) * 3 + 2]? = some b2 ∧
      img.colourAt row col 0 = .ok b0 ∧ img.member row col .blue = .ok b0 ∧
      img.colourAt row col 1 = .ok b1 ∧ img.member row col .green = .ok b1 ∧
      img.colourAt row col 2 = .ok b2 ∧ img.member row col .red = .ok b2 ∧
      (∀ (m : Member) (v : Byte), ∃ img', img.setMember row col m v = .ok img' ∧
        img'.colourAt row col m.offset = .ok v) ∧
      (∀ b g r : Byte, ∃ img' buf', img.setColour row col b g r = .ok img' ∧
        img'.data_ = some buf' ∧ img'.height = img.height ∧ img'.width = img.width ∧
        buf'.length = buf.length ∧
        buf'[(row * img.width_.toNat + col) * 3]? = some b ∧
        buf'[(row * img.width_.toNat + col) * 3 + 1]? = some g ∧
        buf'[(row * img.width_.toNat + col) * 3 + 2]? = some r ∧
        ∀ t, (t < (row * img.width_.toNat + col) * 3 ∨
            (row * img.width_.toNat + col) * 3 + 3 ≤ t) → buf'[t]? = buf[t]?) := by
  obtain ⟨H, W, buf, eH, eW, eD, hl, hp, hH, hW⟩ := hv.shape
  rw [eH] at hr
  rw [eW] at hc
  have hr' : row < H := by exact_mod_cast hr
  have hc' : col < W := by exact_mod_cast hc
  have hlt := pixel_index_lt H W row col 2 hr' hc' (by decide)
  have eidx : (row * W + col) * 3 = row * W * 3 + col * 3 := by ring
  have hpix := pixel_ok img buf row col H W eD eW hl (by omega) hr' hc'
  rw [eW, Int.toNat_ofNat, eidx]
  obtain ⟨b0, h0⟩ : ∃ b, buf[row * W * 3 + col * 3]? = some b := by
    rw [List.getElem?_eq_getElem (by omega)]; exact ⟨_, rfl⟩
  obtain ⟨b1, h1⟩ : ∃ b, buf[row * W * 3 + col * 3 + 1]? = some b := by
    rw [List.getElem?_eq_getElem (by omega)]; exact ⟨_, rfl⟩
  obtain ⟨b2, h2⟩ : ∃ b, buf[row * W * 3 + col * 3 + 2]? = some b := by
    rw [List.getElem?_eq_getElem (by omega)]; exact ⟨_, rfl⟩
  refine ⟨buf, b0, b1, b2, eD, hpix, h0, h1, h2, ?_, ?_, ?_, ?_, ?_, ?_, ?_, ?_⟩
  · exact colourAt_ok img buf row col 0 W b0 eD eW (by omega) (by decide) h0
  · simp only [member, hpix, bind, Except.bind, Member.offset, Nat.add_zero]
    exact load_ok img buf _ b0 eD h0
  · exact colourAt_ok img buf row col 1 W b1 eD eW (by omega) (by decide) h1
  · simp only [member, hpix, bind, Except.bind, Member.offset]
    exact load_ok img buf _ b1 eD h1
  · exact colourAt_ok img buf row col 2 W b2 eD eW (by omega) (by decide) h2
  · simp only [member, hpix, bind, Except.bind, Member.offset]
    exact load_ok img buf _ b2 eD h2
  · intro m v
    have hm : m.offset < 3 := by cases m <;> decide
    obtain ⟨out, hs, hol, hg, -⟩ := store_byte img buf (row * W * 3 + col * 3 + m.offset) v eD
      (by omega)
    refine ⟨{ img with data_ := some out },
      by simp only [setMember, hpix, bind, Except.bind, hs], ?_⟩
    exact colourAt_ok _ out row col m.offset W v rfl eW (by omega) hm hg
  · intro b g r
    obtain ⟨out, hs, hol, g0, g1, g2, hrest⟩ :=
      setColour_spec img buf row col (row * W * 3 + col * 3) b g r eD hpix (by omega)
    exact ⟨_, out, hs, rfl, rfl, rfl, hol, g0, g1, g2, hrest⟩

/-- The view of C13 on pixel `(1, 0)` of the 2 × 2 image `sample`. -/
theorem pixel_view_witness :
    ∃ buf b0 b1 b2,
      sample.data_ = some buf ∧
      sample.pixel (1 : Nat) (0 : Nat) = .ok ((1 * (2 : Int).toNat + 0) * 3) ∧
      buf[(1 * (2 : Int).toNat + 0) * 3]? = some b0 ∧
      buf[(1 * (2 : Int).toNat + 0) * 3 + 1]? = some b1 ∧
      buf[(1 * (2 : Int).toNat + 0) * 3 + 2]? = some b2 ∧
      sample.colourAt (1 : Nat) (0 : Nat) 0 = .ok b0 ∧ sample.member (1 : Nat) (0 : Nat) .blue = .ok b0 ∧
      sample.colourAt (1 : Nat) (0 : Nat) 1 = .ok b1 ∧ sample.member (1 : Nat) (0 : Nat) .green = .ok b1 ∧
      sample.colourAt (1 : Nat) (0 : Nat) 2 = .ok b2 ∧ sample.member (1 : Nat) (0 : Nat) .red = .ok b2 ∧
      (∀ (m : Member) (v : Byte), ∃ img', sample.setMember (1 : Nat) (0 : Nat) m v = .ok img' ∧
        img'.colourAt (1 : Nat) (0 : Nat) m.offset = .ok v) ∧
      (∀ b g r : Byte, ∃ img' buf', sample.setColour (1 : Nat) (0 : Nat) b g r = .ok img' ∧
        img'.data_ = some buf' ∧ img'.height = 2 ∧ img'.width = 2 ∧
        buf'.length = buf.length ∧
        buf'[(1 * (2 : Int).toNat + 0) * 3]? = some b ∧
        buf'[(1 * (2 : Int).toNat + 0) * 3 + 1]? = some g ∧
        buf'[(1 * (2 : Int).toNat + 0) * 3 + 2]? = some r ∧
        ∀ t, (t < (1 * (2 : Int).toNat + 0) * 3 ∨
            (1 * (2 : Int).toNat + 0) * 3 + 3 ≤ t) → buf'[t]? = buf[t]?) :=
  pixel_view sample (by decide) 1 0 (by decide) (by decide)

/-- C14, as amended (decode then encode). For every file made of a 54-byte header announcing
width `w ≥ 0` and height `h ≥ 0`, with `3 * w` and `h * w * 3` both at most `INT_MAX`, followed
by exactly `h * w * 3` pixel bytes, the file constructor returns an image, `save` emits bytes
for it, and these have the length of the file and, from offset 54 on, the very bytes of the
file in the same order. -/
theorem encode_decode_layout (file : List Byte) (h w : Nat)
    (hw : readInt32 file 18 = w) (hh : readInt32 file 22 = h)
    (hlen : file.length = 54 + h * w * 3)
    (hrow : 3 * w ≤ 2147483647) (hall : h * w * 3 ≤ 2147483647) :
    ∃ img bytes, decode file = .ok img ∧ img.encode = .ok bytes ∧
      bytes.length = file.length ∧ bytes.drop 54 = file.drop 54 ∧
      ∀ i, 54 ≤ i → bytes[i]? = file[i]? := by
  have e : h * w * 3 = h * (w * 3) := Nat.mul_assoc _ _ _
  obtain ⟨out, hdec, hol, hoi⟩ := decode_spec file h w hw hh (by omega) (by omega) (by omega)
  obtain ⟨bitmap, henc, -, hbl, hbi⟩ :=
    encode_spec { height_ := h, width_ := w, data_ := some out, name_ := "" } h w out rfl rfl rfl
      hol (by omega)
  have hdrop : bitmap = file.drop 54 := by
    apply eq_of_rows bitmap (file.drop 54) h (w * 3) hbl (by rw [List.length_drop]; omega)
    intro q j hq hj
    have hqr : q + (h - 1 - q) + 1 = h := by omega
    rw [hbi q (h - 1 - q) j hqr hj, hoi q (h - 1 - q) j hqr hj, List.getElem?_drop]
  have hb54 : List.drop 54 (headerBytes (54 + h * (w * 3)) (toUInt32 w) (toUInt32 h) ++ bitmap)
      = bitmap := by
    rw [List.drop_append_of_le_length (by rw [headerBytes_length]),
      List.drop_of_length_le (by rw [headerBytes_length]), List.nil_append]
  refine ⟨_, _, hdec, henc, ?_, ?_, ?_⟩
  · rw [List.length_append, headerBytes_length, hbl, hlen, e]
  · rw [hb54, hdrop]
  · intro i hi
    have h1 : i = 54 + (i - 54) := by omega
    rw [h1, ← List.getElem?_drop, ← List.getElem?_drop, hb54, hdrop]

/-- The layout of C14 on a 2 × 2 file whose header, dimensions apart, is all zero. -/
theorem encode_decode_layout_witness :
    ∃ img bytes,
      decode (List.replicate 18 0 ++ [2, 0, 0, 0, 2, 0, 0, 0] ++ List.replicate 28 0
        ++ [1, 2, 3, 4, 5, 6, 7, 8, 9, 10, 11, 12]) = .ok img ∧
      img.encode = .ok bytes ∧
      bytes.length = (List.replicate 18 (0 : Byte) ++ [2, 0, 0, 0, 2, 0, 0, 0]
        ++ List.replicate 28 0 ++ [1, 2, 3, 4, 5, 6, 7, 8, 9, 10, 11, 12]).length ∧
      bytes.drop 54 = (List.replicate 18 (0 : Byte) ++ [2, 0, 0, 0, 2, 0, 0, 0]
        ++ List.replicate 28 0 ++ [1, 2, 3, 4, 5, 6, 7, 8, 9, 10, 11, 12]).drop 54 ∧
      ∀ i, 54 ≤ i → bytes[i]? = (List.replicate 18 (0 : Byte) ++ [2, 0, 0, 0, 2, 0, 0, 0]
        ++ List.replicate 28 0 ++ [1, 2, 3, 4, 5, 6, 7, 8, 9, 10, 11, 12])[i]? :=
  encode_decode_layout _ 2 2 (by decide) (by decide) (by decide) (by decide) (by decide)

/-- C14 as stated fails: `hugeFile` is a 54-byte header announcing width `2^30` and height 1
followed by exactly `1 * 2^30 * 3` pixel bytes; the file constructor builds no image from it,
so there is nothing to save. -/
theorem encode_decode_layout_counterexample :
    hugeFile.length = 54 + 1 * 1073741824 * 3 ∧
      readInt32 hugeFile 18 = 1073741824 ∧ readInt32 hugeFile 22 = 1 ∧
      ((decode hugeFile).bind fun img => img.encode) = .error .undefinedBehaviour := by
  have hl : hugeFile.length = 54 + 1 * 1073741824 * 3 := by
    rw [hugeFile, List.length_append, headerBytes_length, List.length_replicate]
  have hw : readInt32 hugeFile 18 = 1073741824 := by
    rw [hugeFile, readInt32, headerBytes_width _ _ _ _ (by decide)]
    decide
  have hh : readInt32 hugeFile 22 = 1 := by
    rw [hugeFile, readInt32, headerBytes_height _ _ _ _ (by decide)]
    decide
  refine ⟨hl, hw, hh, ?_⟩
  rw [decode_overflow hugeFile (by rw [hl]; decide) (by rw [hw]; decide)]
  rfl

/-- C15 (`setName("")` is `discard()`). For every image state, `setName` with the empty string
gives exactly the state that `discard()` gives — same name, height, width and buffer — and
destruction then behaves the same in every file system: it saves nothing. -/
theorem setName_empty_eq_discard (img : Image) :
    img.setName "" = img.discard ∧
      (img.setName "").name = img.discard.name ∧
      (img.setName "").height = img.discard.height ∧
      (img.setName "").width = img.discard.width ∧
      (img.setName "").data_ = img.discard.data_ ∧
      ∀ fs, (img.setName "").destroy fs = img.discard.destroy fs ∧
        (img.setName "").destroy fs = .ok fs := by
  refine ⟨rfl, rfl, rfl, rfl, rfl, fun fs => ⟨rfl, ?_⟩⟩
  simp [destroy, setName]

/-- C16 (write failure is surfaced). For every valid image with a non-empty name, `save()`
throws `Could not write file: ` followed by the name if and only if the file of that name
cannot be opened for writing (and otherwise writes the encoded image there); when it throws,
nothing has been written, and the destructor, which calls the same `save`, does not return
normally either: the exception leaves it and ends the program with that message. -/
theorem save_failure_surfaced (img : Image) (hv : img.Valid) (hne : img.name ≠ "")
    (fs : FileSystem) :
    (img.save fs = .error (.runtimeError ("Could not write file: " ++ img.name))
        ↔ fs.writable img.name = false) ∧
      (fs.writable img.name = true →
        ∃ bytes, img.encode = .ok bytes ∧ img.save fs = .ok (fs.write img.name bytes) ∧
          img.destroy fs = .ok (fs.write img.name bytes)) ∧
      (fs.writable img.name = false →
        img.destroy fs = .error (.terminate ("Could not write file: " ++ img.name)) ∧
        ∀ fs', img.save fs ≠ .ok fs' ∧ img.destroy fs ≠ .ok fs') := by
  obtain ⟨H, W, buf, eH, eW, eD, hl, hp, hH, hW⟩ := hv.shape
  obtain ⟨bitmap, henc, -, -, -⟩ := encode_spec img H W buf eH eW eD hl hp
  have hsave := save_of_encode img fs _ henc
  have hcond : img.name_ ≠ "" ∧ img.data_.isSome = true := ⟨hne, by rw [eD]; rfl⟩
  simp only [name] at *
  cases hwr : fs.writable img.name_ with
  | true =>
    rw [hwr, if_pos rfl] at hsave
    refine ⟨⟨fun h => ?_, (fun h => by cases h)⟩, fun _ => ⟨_, henc, hsave, ?_⟩,
      (fun h => by cases h)⟩
    · rw [hsave] at h; cases h
    · simp only [destroy, if_pos hcond, hsave]
  | false =>
    rw [hwr, if_neg (by decide)] at hsave
    have hdes : img.destroy fs = .error (.terminate ("Could not write file: " ++ img.name_)) := by
      simp only [destroy, if_pos hcond, hsave]
    refine ⟨⟨fun _ => rfl, fun _ => hsave⟩, (fun h => by cases h), fun _ => ⟨hdes, fun fs' => ?_⟩⟩
    rw [hsave, hdes]
    exact ⟨(fun h => by cases h), (fun h => by cases h)⟩

/-- The behaviour of C16 for `sample`, named `a.bmp`, where nothing can be opened for writing. -/
theorem save_failure_surfaced_witness :
    (sample.save lockedFs = .error (.runtimeError ("Could not write file: " ++ sample.name))
        ↔ lockedFs.writable sample.name = false) ∧
      (lockedFs.writable sample.name = true →
        ∃ bytes, sample.encode = .ok bytes ∧
          sample.save lockedFs = .ok (lockedFs.write sample.name bytes) ∧
          sample.destroy lockedFs = .ok (lockedFs.write sample.name bytes)) ∧
      (lockedFs.writable sample.name = false →
        sample.destroy lockedFs = .error (.terminate ("Could not write file: " ++ sample.name)) ∧
        ∀ fs', sample.save lockedFs ≠ .ok fs' ∧ sample.destroy lockedFs ≠ .ok fs') :=
  save_failure_surfaced sample (by decide) (by decide) lockedFs

/-- An operation that returns leaves the dimensions and the length of the buffer as they
were; `save` leaves the whole image as it was. -/
theorem perform_shape (img img' : Image) (fs fs' : FileSystem) (op : Op)
    (h : img.perform fs op = .ok (img', fs')) :
    img'.height_ = img.height_ ∧ img'.width_ = img.width_ ∧
      img'.data_.map List.length = img.data_.map List.length := by
  cases op with
  | setName newName =>
    simp only [perform, Except.ok.injEq, Prod.mk.injEq] at h
    rw [← h.1]; exact ⟨rfl, rfl, rfl⟩
  | discard =>
    simp only [perform, Except.ok.injEq, Prod.mk.injEq] at h
    rw [← h.1]; exact ⟨rfl, rfl, rfl⟩
  | assign hei width colour value =>
    simp only [perform, setColourAt, bind, Except.bind, Except.map] at h
    cases hp : img.pixel hei width with
    | error e => rw [hp] at h; cases h
    | ok pt =>
      rw [hp] at h
      simp only at h
      by_cases hcol : colour < 0 ∨ 3 ≤ colour
      · rw [if_pos hcol] at h
        cases h
      · rw [if_neg hcol] at h
        simp only [pure, Except.pure] at h
        cases hs : img.store (pt + colour.toNat) [value] with
        | error e => rw [hs] at h; cases h
        | ok i =>
          rw [hs] at h
          simp only [Except.ok.injEq, Prod.mk.injEq] at h
          rw [← h.1]
          obtain ⟨a1, a2, -, a4⟩ := store_shape _ _ _ _ hs
          exact ⟨a1, a2, a4⟩
  | assignMember hei width m value =>
    simp only [perform, setMember, bind, Except.bind, Except.map] at h
    cases hp : img.pixel hei width with
    | error e => rw [hp] at h; cases h
    | ok pt =>
      rw [hp] at h
      simp only at h
      cases hs : img.store (pt + m.offset) [value] with
      | error e => rw [hs] at h; cases h
      | ok i =>
        rw [hs] at h
        simp only [Except.ok.injEq, Prod.mk.injEq] at h
        rw [← h.1]
        obtain ⟨a1, a2, -, a4⟩ := store_shape _ _ _ _ hs
        exact ⟨a1, a2, a4⟩
  | setColour hei width b g r =>
    simp only [perform, setColour, bind, Except.bind, Except.map] at h
    cases hp : img.pixel hei width with
    | error e => rw [hp] at h; cases h
    | ok pt =>
      rw [hp] at h
      simp only at h
      cases h1 : img.store (pt + Member.blue.offset) [b] with
      | error e => rw [h1] at h; cases h
      | ok i1 =>
        rw [h1] at h
        simp only at h
        cases h2 : i1.store (pt + Member.green.offset) [g] with
        | error e => rw [h2] at h; cases h
        | ok i2 =>
          rw [h2] at h
          simp only at h
          cases h3 : i2.store (pt + Member.red.offset) [r] with
          | error e => rw [h3] at h; cases h
          | ok i3 =>
            rw [h3] at h
            simp only [Except.ok.injEq, Prod.mk.injEq] at h
            rw [← h.1]
            obtain ⟨a1, a2, -, a4⟩ := store_shape _ _ _ _ h1
            obtain ⟨b1, b2, -, b4⟩ := store_shape _ _ _ _ h2
            obtain ⟨c1, c2, -, c4⟩ := store_shape _ _ _ _ h3
            exact ⟨c1.trans (b1.trans a1), c2.trans (b2.trans a2), c4.trans (b4.trans a4)⟩
  | save =>
    simp only [perform, Except.map] at h
    cases hs : img.save fs with
    | error e => rw [hs] at h; cases h
    | ok f =>
      rw [hs] at h
      simp only [Except.ok.injEq, Prod.mk.injEq] at h
      rw [← h.1]; exact ⟨rfl, rfl, rfl⟩

/-- A sequence of operations that returns leaves the dimensions and the length of the buffer
as they were. -/
theorem run_shape (ops : List Op) :
    ∀ (img img' : Image) (fs fs' : FileSystem), run ops img fs = .ok (img', fs') →
      img'.height_ = img.height_ ∧ img'.width_ = img.width_ ∧
        img'.data_.map List.length = img.data_.map List.length := by
  induction ops with
  | nil =>
    intro img img' fs fs' h
    simp only [run, Except.ok.injEq, Prod.mk.injEq] at h
    rw [← h.1]; exact ⟨rfl, rfl, rfl⟩
  | cons op ops ih =>
    intro img img' fs fs' h
    simp only [run] at h
    cases hp : img.perform fs op with
    | error e => rw [hp] at h; cases h
    | ok r =>
      obtain ⟨i1, f1⟩ := r
      rw [hp] at h
      obtain ⟨a1, a2, a3⟩ := perform_shape _ _ _ _ _ hp
      obtain ⟨b1, b2, b3⟩ := ih _ _ _ _ h
      exact ⟨b1.trans a1, b2.trans a2, b3.trans a3⟩

theorem Created.valid {img : Image} (hc : img.Created) : img.Valid := by
  rcases hc with ⟨name, h, w, h0, h1, w0, w1, hnew⟩ | ⟨bytes, hdec, h0, w0⟩
  · exact new_valid name h w img h0 h1 w0 w1 hnew
  · exact (decode_valid bytes img hdec h0 w0).1

/-- C17 (shape invariant). For every image created by `Image(h, w)`, `Image(name, h, w)` or
the file constructor (dimensions non-negative), and after any sequence of pixel assignments,
`setColour`, `setName`, `discard` and `save` calls that all return, `height()` and `width()`
still return what they returned at creation and the buffer still has `height * width * 3`
bytes; and `save` leaves the whole image — name, dimensions, every buffer byte — as it was. -/
theorem shape_invariant (img0 : Image) (hc : img0.Created) (ops : List Op) (fs : FileSystem)
    (img : Image) (fs' : FileSystem) (hrun : run ops img0 fs = .ok (img, fs')) :
    img.height = img0.height ∧ img.width = img0.width ∧
      img.data_.map List.length = some (img.height * img.width * 3).toNat ∧
      img.Valid ∧
      ∀ (i : Image) (fs1 : FileSystem) (r : Image × FileSystem),
        i.perform fs1 .save = .ok r → r.1 = i := by
  have hv := hc.valid
  obtain ⟨a1, a2, a3⟩ := run_shape ops _ _ _ _ hrun
  obtain ⟨v1, v2, v3, v4, v5, v6⟩ := hv
  refine ⟨a1, a2, ?_, ⟨?_, ?_, ?_, ?_, ?_, ?_⟩, ?_⟩
  · simp only [height, width]; rw [a3, a1, a2]; exact v6
  · rw [a1]; exact v1
  · rw [a1]; exact v2
  · rw [a2]; exact v3
  · rw [a2]; exact v4
  · rw [a1, a2]; exact v5
  · rw [a3, a1, a2]; exact v6
  · intro i fs1 r h
    simp only [perform, Except.map] at h
    cases hs : i.save fs1 with
    | error e => rw [hs] at h; cases h
    | ok f =>
      rw [hs] at h
      simp only [Except.ok.injEq] at h
      rw [← h]

/-- The invariant of C17 along a run that writes pixels, renames, saves and discards, from
the image built by `Image("a.bmp", 2, 2)`. -/
theorem shape_invariant_witness :
    Image.height ⟨2, 2, some [9, 0, 0, 0, 0, 0, 0, 0, 0, 1, 2, 3], ""⟩
        = Image.height ⟨2, 2, some (List.replicate 12 0), "a.bmp"⟩ ∧
      Image.width ⟨2, 2, some [9, 0, 0, 0, 0, 0, 0, 0, 0, 1, 2, 3], ""⟩
        = Image.width ⟨2, 2, some (List.replicate 12 0), "a.bmp"⟩ ∧
      (Image.mk 2 2 (some [9, 0, 0, 0, 0, 0, 0, 0, 0, 1, 2, 3]) "").data_.map List.length
        = some ((2 : Int) * 2 * 3).toNat ∧
      Image.Valid ⟨2, 2, some [9, 0, 0, 0, 0, 0, 0, 0, 0, 1, 2, 3], ""⟩ ∧
      ∀ (i : Image) (fs1 : FileSystem) (r : Image × FileSystem),
        i.perform fs1 .save = .ok r → r.1 = i :=
  shape_invariant ⟨2, 2, some (List.replicate 12 0), "a.bmp"⟩
    (Or.inl ⟨"a.bmp", 2, 2, by decide, by decide, by decide, by decide, by decide⟩)
    [.assign 0 0 0 9, .setColour 1 1 1 2 3, .setName "b.bmp", .save, .discard] testFs
    ⟨2, 2, some [9, 0, 0, 0, 0, 0, 0, 0, 0, 1, 2, 3], ""⟩
    (testFs.write "b.bmp" (headerBytes 66 2 2 ++ [0, 0, 0, 1, 2, 3, 9, 0, 0, 0, 0, 0])) rfl

/-- C18 (decode ignores the header but for the dimensions). For any two files of equal length
that agree on bytes 18..25 and on every byte from offset 54 on, the file constructor has the
same outcome on both: whenever it builds an image from one it builds from the other an image
of the same height, width and pixel buffer, whatever the other 46 header bytes are. -/
theorem decode_header_independent (f1 f2 : List Byte) (hlen : f1.length = f2.length)
    (hdim : ∀ i, 18 ≤ i → i < 26 → f1[i]? = f2[i]?)
    (hpix : ∀ i, 54 ≤ i → f1[i]? = f2[i]?) :
    decode f1 = decode f2 ∧
      ∀ img1, decode f1 = .ok img1 →
        ∃ img2, decode f2 = .ok img2 ∧ img2.height = img1.height ∧ img2.width = img1.width ∧
          img2.data_ = img1.data_ := by
  have h1 : (f1.take 54).length = (f2.take 54).length := by
    rw [List.length_take, List.length_take, hlen]
  have hw : readInt32 (f1.take 54) 18 = readInt32 (f2.take 54) 18 := by
    simp only [readInt32]
    rw [readUInt32_take _ _ _ (by omega), readUInt32_take _ _ _ (by omega)]
    simp only [readUInt32, List.getD_eq_getElem?_getD]
    rw [hdim 18 (by omega) (by omega), hdim (18 + 1) (by omega) (by omega),
      hdim (18 + 2) (by omega) (by omega), hdim (18 + 3) (by omega) (by omega)]
  have hh : readInt32 (f1.take 54) 22 = readInt32 (f2.take 54) 22 := by
    simp only [readInt32]
    rw [readUInt32_take _ _ _ (by omega), readUInt32_take _ _ _ (by omega)]
    simp only [readUInt32, List.getD_eq_getElem?_getD]
    rw [hdim 22 (by omega) (by omega), hdim (22 + 1) (by omega) (by omega),
      hdim (22 + 2) (by omega) (by omega), hdim (22 + 3) (by omega) (by omega)]
  have hdrop : f1.drop 54 = f2.drop 54 := by
    apply List.ext_getElem?
    intro i
    rw [List.getElem?_drop, List.getElem?_drop]
    exact hpix _ (by omega)
  have heq : decode f1 = decode f2 := by
    simp only [decode, h1, hw, hh, hdrop]
  refine ⟨heq, fun img1 h => ⟨img1, ?_, rfl, rfl, rfl⟩⟩
  rw [← heq]; exact h

/-- The independence of C18 on two 2 × 2 files: one with an all-zero header but for the
dimensions, one with the header that `save` writes. -/
theorem decode_header_independent_witness :
    decode (List.replicate 18 0 ++ [2, 0, 0, 0, 2, 0, 0, 0] ++ List.replicate 28 0
        ++ [1, 2, 3, 4, 5, 6, 7, 8, 9, 10, 11, 12])
      = decode (headerBytes 66 2 2 ++ [1, 2, 3, 4, 5, 6, 7, 8, 9, 10, 11, 12]) ∧
      ∀ img1, decode (List.replicate 18 0 ++ [2, 0, 0, 0, 2, 0, 0, 0] ++ List.replicate 28 0
          ++ [1, 2, 3, 4, 5, 6, 7, 8, 9, 10, 11, 12]) = .ok img1 →
        ∃ img2, decode (headerBytes 66 2 2 ++ [1, 2, 3, 4, 5, 6, 7, 8, 9, 10, 11, 12]) = .ok img2 ∧
          img2.height = img1.height ∧ img2.width = img1.width ∧ img2.data_ = img1.data_ :=
  decode_header_independent _ _ (by decide)
    (by
      intro i h1 h2
      have : i = 18 ∨ i = 19 ∨ i = 20 ∨ i = 21 ∨ i = 22 ∨ i = 23 ∨ i = 24 ∨ i = 25 := by omega
      rcases this with h | h | h | h | h | h | h | h <;> subst h <;> decide)
    (by
      intro i h1
      have e : i = 54 + (i - 54) := by omega
      rw [e, ← List.getElem?_drop, ← List.getElem?_drop]
      rfl)

/-- C19 (in-bounds access is safe, pixels do not overlap). For every valid image of height
`h` and width `w` and every `row < h`, `col < w`, `k < 3`: the `Point` of the pixel is at offset
`(row * w + col) * 3` and that offset plus `k` is below the buffer length `h * w * 3`; the
`Point` of any other in-bounds pixel is at least three bytes away; and assigning component `k`
of the pixel succeeds, makes that component read the new value, and leaves every other
component of every in-bounds pixel (the other two of the same pixel included) as it was. -/
theorem in_bounds_disjoint (img : Image) (hv : img.Valid) (row col k : Nat)
    (hr : (row : Int) < img.height_) (hc : (col : Int) < img.width_) (hk : k < 3) :
    ∃ p, img.pixel row col = .ok p ∧ p = (row * img.width_.toNat + col) * 3 ∧
      ((p + k : Nat) : Int) < img.height_ * img.width_ * 3 ∧ p + k < img.size ∧
      (∀ row' col' : Nat, (row' : Int) < img.height_ → (col' : Int) < img.width_ →
        (row', col') ≠ (row, col) →
        ∃ p', img.pixel row' col' = .ok p' ∧ (p + 3 ≤ p' ∨ p' + 3 ≤ p)) ∧
      ∀ v : Byte, ∃ img', img.setColourAt row col k v = .ok img' ∧
        img'.colourAt row col k = .ok v ∧
        ∀ row' col' k' : Nat, (row' : Int) < img.height_ → (col' : Int) < img.width_ → k' < 3 →
          (row', col', k') ≠ (row, col, k) →
          img'.colourAt row' col' k' = img.colourAt row' col' k' := by
  obtain ⟨H, W, buf, eH, eW, eD, hl, hp, hH, hW⟩ := hv.shape
  rw [eH] at hr
  rw [eW] at hc
  have hr' : row < H := by exact_mod_cast hr
  have hc' : col < W := by exact_mod_cast hc
  have hlt := pixel_index_lt H W row col k hr' hc' hk
  have hpix := pixel_ok img buf row col H W eD eW hl (by omega) hr' hc'
  have hsize : img.size = buf.length := by simp [size, eD]
  refine ⟨row * W * 3 + col * 3, hpix, by rw [eW, Int.toNat_ofNat]; ring, ?_, by omega, ?_, ?_⟩
  · rw [eH, eW]
    have : ((H : Int) * (W : Int) * 3) = ((H * (W * 3) : Nat) : Int) := by push_cast; ring
    rw [this]
    exact_mod_cast hlt
  · intro row' col' hr2 hc2 hne
    rw [eH] at hr2
    rw [eW] at hc2
    have hr2' : row' < H := by exact_mod_cast hr2
    have hc2' : col' < W := by exact_mod_cast hc2
    refine ⟨_, pixel_ok img buf row' col' H W eD eW hl (by omega) hr2' hc2', ?_⟩
    have hd : row' * W * 3 + col' * 3 + 0 ≠ row * W * 3 + col * 3 + 0 := by
      intro h
      obtain ⟨h1, h2, -⟩ := pixel_index_inj W row' col' 0 row col 0 hc2' (by decide) hc'
        (by decide) h
      exact hne (by rw [h1, h2])
    omega
  · intro v
    obtain ⟨out, hs, hol, hg, hrest⟩ := store_byte img buf (row * W * 3 + col * 3 + k) v eD
      (by omega)
    have e3 : ¬ ((k : Int) < 0 ∨ 3 ≤ (k : Int)) := by omega
    refine ⟨{ img with data_ := some out }, ?_, ?_, ?_⟩
    · simp only [setColourAt, hpix, bind, Except.bind, if_neg e3, Int.toNat_ofNat, hs]
      rfl
    · exact colourAt_ok _ out row col k W v rfl eW (by omega) hk hg
    · intro row' col' k' hr2 hc2 hk2 hne
      rw [eH] at hr2
      rw [eW] at hc2
      have hr2' : row' < H := by exact_mod_cast hr2
      have hc2' : col' < W := by exact_mod_cast hc2
      have hlt2 := pixel_index_lt H W row' col' k' hr2' hc2' hk2
      have hd : row' * W * 3 + col' * 3 + k' ≠ row * W * 3 + col * 3 + k := by
        intro h
        obtain ⟨h1, h2, h3⟩ := pixel_index_inj W row' col' k' row col k hc2' hk2 hc' hk h
        exact hne (by rw [h1, h2, h3])
      obtain ⟨b, hb⟩ : ∃ b, buf[row' * W * 3 + col' * 3 + k']? = some b := by
        rw [List.getElem?_eq_getElem (by omega)]; exact ⟨_, rfl⟩
      rw [colourAt_ok img buf row' col' k' W b eD eW (by omega) hk2 hb]
      exact colourAt_ok _ out row' col' k' W b rfl eW (by omega) hk2 (by rw [hrest _ hd, hb])

/-- The facts of C19 for component 2 of pixel `(0, 1)` of the 2 × 2 image `sample`. -/
theorem in_bounds_disjoint_witness :
    ∃ p, sample.pixel (0 : Nat) (1 : Nat) = .ok p ∧ p = (0 * (2 : Int).toNat + 1) * 3 ∧
      ((p + 2 : Nat) : Int) < 2 * 2 * 3 ∧ p + 2 < sample.size ∧
      (∀ row' col' : Nat, (row' : Int) < 2 → (col' : Int) < 2 →
        (row', col') ≠ (0, 1) →
        ∃ p', sample.pixel row' col' = .ok p' ∧ (p + 3 ≤ p' ∨ p' + 3 ≤ p)) ∧
      ∀ v : Byte, ∃ img', sample.setColourAt (0 : Nat) (1 : Nat) (2 : Nat) v = .ok img' ∧
        img'.colourAt (0 : Nat) (1 : Nat) (2 : Nat) = .ok v ∧
        ∀ row' col' k' : Nat, (row' : Int) < 2 → (col' : Int) < 2 → k' < 3 →
          (row', col', k') ≠ (0, 1, 2) →
          img'.colourAt row' col' k' = sample.colourAt row' col' k' :=
  in_bounds_disjoint sample (by decide) 0 1 2 (by decide) (by decide) (by decide)

/-- C20 (the file-size field is self-consistent). For every valid image, `save` emits the
header bytes followed by the pixel bytes; the 4-byte little-endian value at offset 2 is the
total number of bytes emitted and the value at offset 10 is the number of bytes emitted before
the first pixel byte. -/
theorem size_field_consistent (img : Image) (hv : img.Valid) :
    ∃ header bitmap, img.saveHeader = .ok header ∧
      img.saveRows img.height_.toNat = .ok bitmap ∧
      img.encode = .ok (header ++ bitmap) ∧
      readUInt32 (header ++ bitmap) 2 = (header ++ bitmap).length ∧
      readUInt32 (header ++ bitmap) 10 = header.length ∧
      ((header ++ bitmap).length : Int) = 54 + img.height_ * img.width_ * 3 := by
  obtain ⟨H, W, buf, eH, eW, eD, hl, hp, hH, hW⟩ := hv.shape
  obtain ⟨bitmap, henc, hrows, hbl, -⟩ := encode_spec img H W buf eH eW eD hl hp
  have hlen : (headerBytes (54 + H * (W * 3)) (toUInt32 W) (toUInt32 H) ++ bitmap).length
      = 54 + H * (W * 3) := by rw [List.length_append, headerBytes_length, hbl]
  refine ⟨_, bitmap, saveHeader_ok img H W eH eW hp, by rw [eH, Int.toNat_ofNat]; exact hrows,
    henc, ?_, ?_, ?_⟩
  · rw [hlen]; exact headerBytes_size _ _ _ _ (by omega)
  · rw [headerBytes_length]
    simp only [headerBytes, le16, le32, readUInt32, List.cons_append, List.nil_append,
      List.getD_cons_succ, List.getD_cons_zero, List.append_assoc]
    rfl
  · rw [hlen, eH, eW]
    push_cast; ring

/-- The consistency of C20 for the 20 × 20 image of `image_test.cpp`. -/
theorem size_field_consistent_witness :
    ∃ header bitmap, test20.saveHeader = .ok header ∧
      test20.saveRows (20 : Int).toNat = .ok bitmap ∧
      test20.encode = .ok (header ++ bitmap) ∧
      readUInt32 (header ++ bitmap) 2 = (header ++ bitmap).length ∧
      readUInt32 (header ++ bitmap) 10 = header.length ∧
      ((header ++ bitmap).length : Int) = 54 + 20 * 20 * 3 :=
  size_field_consistent test20 test20_valid

end Image
end Bmp
